import Mathlib

/-!
# Verification of the chess rules engine

A shallow embedding of the chess engine in `flask_react/backend/chess.py`
(the only complete, self-contained iteration of the engine in the
repository; the `chess/` package iteration has unresolved imports).
Positions are integer pairs, mirroring the `"row,col"` strings used by the
source (`pos_str`/`pos_tup` are a bijection between those strings and
integer pairs, and `add_pos` is componentwise addition).

Python exceptions (the unguarded `next(...)` in `Board.find_king`, reached
from `checked`, `final_checks` and move generation) are modelled by
`Option`: `none` is a raised exception.  Out-of-range board lookups (a
`KeyError` in Python, reachable only for a pawn standing on the far rank,
whose forward square leaves the grid) are modelled by a total grid that
holds the `Empty` piece off the board; the resulting candidate move is
rejected by `final_checks`' bounds check.
-/

set_option maxHeartbeats 1000000

namespace Chess

/-- A board coordinate `(row, col)`.  The source stores these as strings
`"row,col"`; `pos_str`/`pos_tup` translate losslessly, so integer pairs are
a faithful model. -/
abbrev Pos := Int × Int

/-- `add_pos`: componentwise addition of positions/offsets. -/
def addPos (p q : Pos) : Pos := (p.1 + q.1, p.2 + q.2)

/-- `in_bounds`: both coordinates within `0..7`. -/
def inBounds (p : Pos) : Bool := max p.1 p.2 ≤ 7 && min p.1 p.2 ≥ 0

/-- `Color` (`StrEnum` in the source): `NONE` is the color of the `Empty`
piece sentinel. -/
inductive Color where
  | none | white | black
  deriving DecidableEq, Repr

/-- `Color.dir`: forward direction of a pawn of this color. -/
def Color.dir : Color → Int
  | .white => -1
  | .black => 1
  | .none => 0

/-- `Color.other`: the opposite color (`NONE` for `NONE`). -/
def Color.other : Color → Color
  | .white => .black
  | .black => .white
  | .none => .none

/-- `Color.back_rank`. -/
def Color.backRank : Color → Int
  | .white => 7
  | .black => 0
  | .none => -1

/-- `Color.pawn_rank`: the starting rank of this color's pawns. -/
def Color.pawnRank : Color → Int
  | .white => 6
  | .black => 1
  | .none => -1

/-- The kind of a piece; the source encodes it as the `type` string of each
`Piece` subclass (`"none"` for `Empty`). -/
inductive PieceType where
  | empty | pawn | knight | bishop | rook | queen | king
  deriving DecidableEq, Repr

/-- A piece: dataclass equality in the source compares `(color, type)`. -/
structure Piece where
  color : Color
  type : PieceType
  deriving DecidableEq, Repr

/-- The `Empty` sentinel piece. -/
def Piece.emptyPiece : Piece := ⟨.none, .empty⟩

/-- Python truthiness of a piece: `Empty.__bool__` is `False`, every other
piece is truthy. -/
def Piece.isOccupied (p : Piece) : Bool := p.type ≠ .empty

/-- The state of one board square: total lookup `Square → Piece`. -/
abbrev Grid := Pos → Piece

/-- Scale an offset by a natural number (the `np.multiply` of a quadrant
with a magnitude pair `(i, i)`). -/
def scale (q : Pos) (k : Nat) : Pos := (q.1 * k, q.2 * k)

/-- The four diagonal quadrants of `diagonal_moves`. -/
def diagQuadrants : List Pos := [(1, 1), (1, -1), (-1, 1), (-1, -1)]

/-- The four sides of `perpendicular_moves`. -/
def perpSides : List Pos := [(0, 1), (1, 0), (0, -1), (-1, 0)]

/-- Common shape of `diagonal_moves` and `perpendicular_moves`: for each
direction, the positions at distance `1..distance`, filtered to the grid. -/
def rayMoves (dirs : List Pos) (pos : Pos) (distance : Nat) : List Pos :=
  dirs.flatMap fun q =>
    ((List.range distance).map fun i => addPos pos (scale q (i + 1))).filter inBounds

/-- `diagonal_moves(pos, distance)`. -/
def diagonalMoves (pos : Pos) (distance : Nat := 7) : List Pos :=
  rayMoves diagQuadrants pos distance

/-- `perpendicular_moves(pos, distance)`. -/
def perpendicularMoves (pos : Pos) (distance : Nat := 7) : List Pos :=
  rayMoves perpSides pos distance

/-- `l_shaped_moves(pos)`: quadrant × magnitude products, filtered to the
grid. -/
def lShapedMoves (pos : Pos) : List Pos :=
  diagQuadrants.flatMap fun q =>
    ((([(1, 2), (2, 1)] : List Pos).map fun mg =>
      addPos pos (q.1 * mg.1, q.2 * mg.2)).filter inBounds)

/-- Python `range(a, b, 1 if b > a else -1)` as a list of integers. -/
def intRange (a b : Int) : List Int :=
  if b > a then (List.range (b - a).toNat).map fun (i : Nat) => a + (i : Int)
  else (List.range (a - b).toNat).map fun (i : Nat) => a - (i : Int)

/-- `obstruction(board, frm, to)`: whether a piece sits strictly between
`frm` and `to` (`False` for short moves and knight moves).  The source's
parameter `to` is a reserved token in Lean and is rendered `dst`
throughout this file. -/
def obstruction (g : Grid) (frm dst : Pos) : Bool :=
  let ROWS := intRange frm.1 dst.1
  let COLS := intRange frm.2 dst.2
  if min ROWS.length COLS.length == 1 then false
  else if ¬ROWS.isEmpty ∧ ¬COLS.isEmpty then
    (ROWS.zip COLS).any fun rc => rc ≠ frm && (g rc).isOccupied
  else if ¬ROWS.isEmpty then
    ROWS.any fun r => ((r, frm.2) : Pos) ≠ frm && (g (r, frm.2)).isOccupied
  else
    COLS.any fun c => ((frm.1, c) : Pos) ≠ frm && (g (frm.1, c)).isOccupied

/-- `kingcheck_safe(board, pos, color)`: `pos` is not attacked by any piece
of `color.other`.  (At call sites where the source omits `color` it
defaults to `board.color_move`; the model passes it explicitly.) -/
def kingcheckSafe (g : Grid) (pos : Pos) (color : Color) : Bool :=
  let enemy := color.other
  if (lShapedMoves pos).any (fun m => g m == (⟨enemy, .knight⟩ : Piece)) then false
  else if (perpendicularMoves pos).any (fun m =>
      (g m == (⟨enemy, .queen⟩ : Piece) || g m == (⟨enemy, .rook⟩ : Piece)) &&
      !obstruction g pos m) then false
  else if (diagonalMoves pos).any (fun m =>
      (g m == (⟨enemy, .queen⟩ : Piece) || g m == (⟨enemy, .bishop⟩ : Piece)) &&
      !obstruction g pos m) then false
  else if (perpendicularMoves pos 1 ++ diagonalMoves pos 1).any
      (fun m => g m == (⟨enemy, .king⟩ : Piece)) then false
  else !(([1, -1] : List Int).any fun side =>
    let m := addPos pos (color.dir, side)
    inBounds m && (g m == (⟨enemy, .pawn⟩ : Piece)))

/-- `CastlingFlag` enum. -/
inductive CastlingFlag where
  | queenSide | kingSide | kingMoved | rookMoved
  deriving DecidableEq, Repr

/-- `CastlingPerm`: the four real entries of the `(Color, CastlingFlag)`
keyed mapping (only `KING_SIDE`/`QUEEN_SIDE` per real color are ever

populated by `FEN_CASTLING`). -/
structure CastlingPerm where
  wk : Bool
  wq : Bool
  bk : Bool
  bq : Bool
  deriving DecidableEq, Repr

/-- Lookup `castling_perm[color, flag]`.  Keys outside the four populated
ones are never looked up by the source. -/
def CastlingPerm.get (cp : CastlingPerm) (c : Color) (f : CastlingFlag) : Bool :=
  match c, f with
  | .white, .kingSide => cp.wk
  | .white, .queenSide => cp.wq
  | .black, .kingSide => cp.bk
  | .black, .queenSide => cp.bq
  | _, _ => false

/-- `CastlingPerm.remove`: `KING_MOVED` clears both rights of the color,
otherwise the named side is cleared.  (Setting an entry for the `NONE`
color or the `ROOK_MOVED` key would add a stray key to the Python dict
without touching the four real rights, so it is the identity here; no call
site does either.) -/
def CastlingPerm.remove (cp : CastlingPerm) (c : Color) (f : CastlingFlag) : CastlingPerm :=
  match c, f with
  | .white, .kingMoved => { cp with wk := false, wq := false }
  | .black, .kingMoved => { cp with bk := false, bq := false }
  | .white, .kingSide => { cp with wk := false }
  | .white, .queenSide => { cp with wq := false }
  | .black, .kingSide => { cp with bk := false }
  | .black, .queenSide => { cp with bq := false }
  | _, _ => cp

/-- A `Move`.  `promote` is an `InitVar` in the source (it only shapes the
computed `updates` dict); it is kept as a field here so that `updates` can
be derived by the function below.  The source's `frm`/`to` are `frm`/`dst`. -/
structure Move where
  piece : Piece
  frm : Pos
  dst : Pos
  enpassantCapture : Option Pos := Option.none
  enpassantTarget : Option Pos := Option.none
  castlingFlag : Option CastlingFlag := Option.none
  promote : Bool := false
  deriving DecidableEq, Repr

/-- `Move.__post_init__`: the `updates` dict, as the association list in
dict insertion order (`frm`, `to`, en passant square, castling rook
squares; all keys are distinct for generated moves, and applying the list
left to right coincides with the dict in general). -/
def Move.updates (m : Move) : List (Pos × Piece) :=
  let color := m.piece.color
  let backRank := color.backRank
  [(m.frm, Piece.emptyPiece),
   (m.dst, if m.promote then (⟨color, .queen⟩ : Piece) else m.piece)]
  ++ (match m.enpassantCapture with
      | some p => [(p, Piece.emptyPiece)]
      | Option.none => [])
  ++ (match m.castlingFlag with
      | some .queenSide =>
          [(((backRank, 3) : Pos), (⟨color, .rook⟩ : Piece)),
           (((backRank, 0) : Pos), Piece.emptyPiece)]
      | some .kingSide =>
          [(((backRank, 5) : Pos), (⟨color, .rook⟩ : Piece)),
           (((backRank, 7) : Pos), Piece.emptyPiece)]
      | _ => [])

/-- Write a list of square updates into a grid, in order. -/
def applyUpdates (g : Grid) : List (Pos × Piece) → Grid
  | [] => g
  | u :: us => applyUpdates (fun p => if p = u.1 then u.2 else g p) us

/-- The board: grid, side to move, castling rights, en passant target and
the cached legal moves (`all_moves_cache`). -/
structure Board where
  grid : Grid
  colorMove : Color
  castlingPerm : CastlingPerm
  enpassantTarget : Option Pos
  allMovesCache : List (Pos × List Move)

/-- The 64 squares in the iteration order of `Board.data` (dict insertion
order from `set_fen`: `divmod(i, 8)` for `i = 0..63`; later square updates
keep that order). -/
def squares64 : List Pos :=
  (List.range 64).map fun i => (((i / 8 : Nat) : Int), ((i % 8 : Nat) : Int))

/-- `Board.find_king(color)`: the first square (in iteration order)
holding a `King` of `color`; `none` models the `StopIteration` the
unguarded `next(...)` raises when there is no such square. -/
def findKing (g : Grid) (color : Color) : Option Pos :=
  squares64.find? fun p => (g p).color == color && (g p).type == PieceType.king

/-- `not KingCheck-safe` at the located king of `c`; `Board.checked` below
instantiates `c := color_move`.  `none` models the exception raised when
`c` has no king on the board. -/
def inCheckColor (g : Grid) (c : Color) : Option Bool :=
  (findKing g c).map fun k => !kingcheckSafe g k c

/-- `Board.checked`. -/
def Board.checked (b : Board) : Option Bool :=
  inCheckColor b.grid b.colorMove

/-- `Board.update_from_move`: write the move's updates into the grid; the
rest of the board (turn, rights, target, cache) is untouched. -/
def updateFromMove (b : Board) (m : Move) : Board :=
  { b with grid := applyUpdates b.grid m.updates }

/-- `final_checks(board, move)`: reject out-of-grid, wrong mover color,
own-color destination or obstruction; otherwise simulate the move on a
copy and require the mover's king to be safe.  `none` models the
exception raised by `find_king` when the simulated board has no
`color_move` king. -/
def finalChecks (b : Board) (m : Move) : Option Bool :=
  if !inBounds m.dst
      || (b.grid m.frm).color != b.colorMove
      || (b.grid m.dst).color == b.colorMove
      || obstruction b.grid m.frm m.dst then some false
  else ((updateFromMove b m).checked).map fun c => !c

/-- A Python list comprehension filtering with a possibly-raising
predicate: `none` as soon as the predicate raises, otherwise the kept
elements. -/
def optFilter (p : α → Option Bool) : List α → Option (List α)
  | [] => some []
  | x :: xs =>
    match p x with
    | Option.none => Option.none
    | some b =>
      match optFilter p xs with
      | Option.none => Option.none
      | some rest => some (if b then x :: rest else rest)

/-- `Pawn.moves(board, frm)` for a pawn of color `color`.  In the source
the en passant branch tests `enpassant_target == (frm_row, to_col)`, which
compares a `"row,col"` string against an integer tuple and is therefore
always `False` in Python: no en passant move is ever appended, so the
branch contributes nothing here.  Note that the double-step move copies
the board's current `enpassant_target` into the move unchanged. -/
def pawnMoves (b : Board) (frm : Pos) (color : Color) : Option (List Move) :=
  let dir := color.dir
  let enemyBackRank := color.other.backRank
  let sideCands := ([1, -1] : List Int).filterMap fun side =>
    let dst := addPos frm (dir, side)
    if inBounds dst && (b.grid dst).color == color.other then
      some { piece := ⟨color, .pawn⟩, frm := frm, dst := dst,
             promote := dst.1 == enemyBackRank }
    else Option.none
  let frontLong := addPos frm (2 * dir, 0)
  let longCand : List Move :=
    if frm.1 == color.pawnRank && !(b.grid frontLong).isOccupied then
      [{ piece := ⟨color, .pawn⟩, frm := frm, dst := frontLong,
         enpassantTarget := b.enpassantTarget }]
    else []
  let frontShort := addPos frm (dir, 0)
  let shortCand : List Move :=
    if !(b.grid frontShort).isOccupied then
      [{ piece := ⟨color, .pawn⟩, frm := frm, dst := frontShort,
         promote := frontShort.1 == enemyBackRank }]
    else []
  optFilter (finalChecks b) (sideCands ++ longCand ++ shortCand)

/-- `Rook.moves`. -/
def rookMoves (b : Board) (frm : Pos) (color : Color) : Option (List Move) :=
  optFilter (finalChecks b) ((perpendicularMoves frm).map fun dst =>
    { piece := ⟨color, .rook⟩, frm := frm, dst := dst,
      castlingFlag := some .rookMoved })

/-- `Knight.moves`. -/
def knightMoves (b : Board) (frm : Pos) (color : Color) : Option (List Move) :=
  optFilter (finalChecks b) ((lShapedMoves frm).map fun dst =>
    { piece := ⟨color, .knight⟩, frm := frm, dst := dst })

/-- `Bishop.moves`. -/
def bishopMoves (b : Board) (frm : Pos) (color : Color) : Option (List Move) :=
  optFilter (finalChecks b) ((diagonalMoves frm).map fun dst =>
    { piece := ⟨color, .bishop⟩, frm := frm, dst := dst })

/-- `Queen.moves`. -/
def queenMoves (b : Board) (frm : Pos) (color : Color) : Option (List Move) :=
  optFilter (finalChecks b) ((diagonalMoves frm ++ perpendicularMoves frm).map fun dst =>
    { piece := ⟨color, .queen⟩, frm := frm, dst := dst })

/-- `King.moves(board, frm)` for a king of color `color`: the castling
candidates (guarded by the right, by `not board.checked`, by
`kingcheck_safe` on the passed square — the source's defaulted `color`
argument there is `board.color_move` — and by the between squares being
empty) followed by the normal one-step moves, all filtered by
`final_checks`. -/
def kingMoves (b : Board) (frm : Pos) (color : Color) : Option (List Move) :=
  let backRank := color.backRank
  match b.checked with
  | Option.none => Option.none
  | some chk =>
    let kingNotChecked := !chk
    let shortCastle : List Move :=
      if b.castlingPerm.get color .kingSide && kingNotChecked
          && kingcheckSafe b.grid (backRank, 5) b.colorMove
          && !((b.grid (backRank, 5)).isOccupied || (b.grid (backRank, 6)).isOccupied) then
        [{ piece := ⟨color, .king⟩, frm := frm, dst := addPos frm (0, 2),
           castlingFlag := some .kingSide }]
      else []
    let longCastle : List Move :=
      if b.castlingPerm.get color .queenSide && kingNotChecked
          && kingcheckSafe b.grid (backRank, 3) b.colorMove
          && !((b.grid (backRank, 1)).isOccupied || (b.grid (backRank, 2)).isOccupied
               || (b.grid (backRank, 3)).isOccupied) then
        [{ piece := ⟨color, .king⟩, frm := frm, dst := addPos frm (0, -2),
           castlingFlag := some .queenSide }]
      else []
    let normals := (diagonalMoves frm 1 ++ perpendicularMoves frm 1).map fun dst =>
      ({ piece := ⟨color, .king⟩, frm := frm, dst := dst,
         castlingFlag := some .kingMoved } : Move)
    optFilter (finalChecks b) (shortCastle ++ longCastle ++ normals)

/-- Dispatch on the piece at a square (`piece.moves(self, pos)`). -/
def pieceMoves (b : Board) (p : Piece) (pos : Pos) : Option (List Move) :=
  match p.type with
  | .empty => some []
  | .pawn => pawnMoves b pos p.color
  | .rook => rookMoves b pos p.color
  | .knight => knightMoves b pos p.color
  | .bishop => bishopMoves b pos p.color
  | .queen => queenMoves b pos p.color
  | .king => kingMoves b pos p.color

/-- The body of `recompute_all_moves` over a list of squares: pieces of
the side to move generate their moves (a raised exception aborts the
whole computation), squares with no moves are dropped. -/
def cacheGo (b : Board) : List Pos → Option (List (Pos × List Move))
  | [] => some []
  | p :: ps =>
    if (b.grid p).color == b.colorMove then
      match pieceMoves b (b.grid p) p with
      | Option.none => Option.none
      | some ms =>
        match cacheGo b ps with
        | Option.none => Option.none
        | some rest => some (if ms.isEmpty then rest else (p, ms) :: rest)
    else cacheGo b ps

/-- `Board.recompute_all_moves()` (for `color = color_move`). -/
def computeCache (b : Board) : Option (List (Pos × List Move)) :=
  cacheGo b squares64

/-- `Board.execute_move` without the final cache recomputation: write the
updates, clear castling rights according to the move's flag, set the en
passant target from the move, flip the side to move. -/
def applyMove (b : Board) (m : Move) : Board :=
  let color := b.colorMove
  let backRank := color.backRank
  let perm :=
    match m.castlingFlag with
    | some .queenSide => b.castlingPerm.remove color .queenSide
    | some .kingSide => b.castlingPerm.remove color .kingSide
    | some .kingMoved => b.castlingPerm.remove color .kingMoved
    | some .rookMoved =>
        b.castlingPerm.remove color
          (if m.frm = ((backRank, 0) : Pos) then .queenSide else .kingSide)
    | Option.none => b.castlingPerm
  { grid := applyUpdates b.grid m.updates,
    colorMove := color.other,
    castlingPerm := perm,
    enpassantTarget := m.enpassantTarget,
    allMovesCache := b.allMovesCache }

/-- `Board.execute_move`: apply the move and recompute the cache for the
new side to move (`none` models an exception during that recomputation). -/
def executeMove (b : Board) (m : Move) : Option Board :=
  let b' := applyMove b m
  (computeCache b').map fun c => { b' with allMovesCache := c }

/-- `Board.checkmated`: empty cache and checked (the cache test
short-circuits, so no exception is raised when the cache is non-empty). -/
def Board.checkmated (b : Board) : Option Bool :=
  if !b.allMovesCache.isEmpty then some false else b.checked

/-- `Board.stalemated`: empty cache and not checked. -/
def Board.stalemated (b : Board) : Option Bool :=
  if !b.allMovesCache.isEmpty then some false else b.checked.map fun c => !c

/-- Modelled from the spec: `Board.get_move(frm, to)`, called by the HTTP
layer's `choose_move` in `flask_react/backend/base.py`, is absent from the
sources (only its caller survives).  Per the spec it looks up the cached
legal moves of the from-square and returns the one landing on the
to-square, or `None`. -/
def getMove (b : Board) (frm dst : Pos) : Option Move :=
  match b.allMovesCache.find? fun e => e.1 == frm with
  | Option.none => Option.none
  | some e => e.2.find? fun m => m.dst == dst

/-- Modelled from the spec: the `choose_move` endpoint of
`flask_react/backend/base.py`.  If `get_move` finds no cached move for the
pair it answers the "MOVE DOES NOT EXIST" error and the board is left
unchanged; otherwise it executes the cached move (`"EXECUTE RAISED"`
standing for an exception escaping `execute_move`, after which the board
holds the applied move with a stale cache). -/
def chooseMove (b : Board) (frm dst : Pos) : Option String × Board :=
  match getMove b frm dst with
  | Option.none => (some "MOVE DOES NOT EXIST", b)
  | some m =>
    match executeMove b m with
    | some b' => (Option.none, b')
    | Option.none => (some "EXECUTE RAISED", applyMove b m)

/-- Build a grid from a finite list of occupied squares (all other squares
hold the `Empty` sentinel), for concrete test boards. -/
def gridOf (l : List (Pos × Piece)) : Grid := fun p =>
  ((l.find? fun e => e.1 == p).map (·.2)).getD Piece.emptyPiece

/-! ## Helper lemmas about the Option-valued list comprehension -/

theorem optFilter_mem_of {α} {p : α → Option Bool} :
    ∀ {xs ys : List α}, optFilter p xs = some ys → ∀ {m}, m ∈ ys → m ∈ xs ∧ p m = some true := by
  intro xs
  induction xs with
  | nil =>
    intro ys h m hm
    simp only [optFilter, Option.some.injEq] at h
    subst h
    simp at hm
  | cons x xs ih =>
    intro ys h m hm
    rw [optFilter] at h
    cases hpx : p x with
    | none => rw [hpx] at h; exact absurd h (by simp)
    | some bx =>
      rw [hpx] at h
      cases hrest : optFilter p xs with
      | none => rw [hrest] at h; exact absurd h (by simp)
      | some rest =>
        rw [hrest] at h
        simp only [Option.some.injEq] at h
        subst h
        by_cases hbx : bx = true
        · subst hbx
          simp only [if_pos rfl] at hm
          rcases List.mem_cons.mp hm with rfl | hm'
          · exact ⟨List.mem_cons_self _ _, hpx⟩
          · obtain ⟨h1, h2⟩ := ih hrest hm'
            exact ⟨List.mem_cons_of_mem _ h1, h2⟩
        · rw [if_neg hbx] at hm
          obtain ⟨h1, h2⟩ := ih hrest hm
          exact ⟨List.mem_cons_of_mem _ h1, h2⟩

theorem optFilter_mem_of_mem {α} {p : α → Option Bool} :
    ∀ {xs ys : List α}, optFilter p xs = some ys →
      ∀ {m}, m ∈ xs → p m = some true → m ∈ ys := by
  intro xs
  induction xs with
  | nil => intro ys _ m hm; simp at hm
  | cons x xs ih =>
    intro ys h m hm hpm
    rw [optFilter] at h
    cases hpx : p x with
    | none => rw [hpx] at h; exact absurd h (by simp)
    | some bx =>
      rw [hpx] at h
      cases hrest : optFilter p xs with
      | none => rw [hrest] at h; exact absurd h (by simp)
      | some rest =>
        rw [hrest] at h
        simp only [Option.some.injEq] at h
        subst h
        rcases List.mem_cons.mp hm with rfl | hm'
        · rw [hpm] at hpx
          cases hpx
          simp
        · have := ih hrest hm' hpm
          by_cases hbx : bx = true <;> simp [hbx, this]

theorem optFilter_isSome {α} {p : α → Option Bool} :
    ∀ {xs : List α}, (∀ x ∈ xs, (p x).isSome) → ∃ ys, optFilter p xs = some ys := by
  intro xs
  induction xs with
  | nil => intro _; exact ⟨[], rfl⟩
  | cons x xs ih =>
    intro h
    obtain ⟨bx, hbx⟩ := Option.isSome_iff_exists.mp (h x (List.mem_cons_self _ _))
    obtain ⟨rest, hrest⟩ := ih fun y hy => h y (List.mem_cons_of_mem _ hy)
    exact ⟨if bx then x :: rest else rest, by rw [optFilter, hbx, hrest]⟩

/-- Every entry of a successfully recomputed cache is the move list its
piece generated. -/
theorem cacheGo_mem {b : Board} :
    ∀ {l : List Pos} {c}, cacheGo b l = some c →
      ∀ {pos ms}, (pos, ms) ∈ c → pieceMoves b (b.grid pos) pos = some ms := by
  intro l
  induction l with
  | nil =>
    intro c h pos ms hm
    simp only [cacheGo, Option.some.injEq] at h
    subst h
    simp at hm
  | cons p ps ih =>
    intro c h pos ms hm
    rw [cacheGo] at h
    by_cases hcol : ((b.grid p).color == b.colorMove) = true
    · rw [if_pos hcol] at h
      cases hpm : pieceMoves b (b.grid p) p with
      | none => rw [hpm] at h; exact absurd h (by simp)
      | some pms =>
        rw [hpm] at h
        cases hrest : cacheGo b ps with
        | none => rw [hrest] at h; exact absurd h (by simp)
        | some rest =>
          rw [hrest] at h
          simp only [Option.some.injEq] at h
          subst h
          by_cases hempty : pms.isEmpty = true
          · rw [if_pos hempty] at hm
            exact ih hrest hm
          · rw [if_neg hempty] at hm
            rcases List.mem_cons.mp hm with heq | hm'
            · obtain ⟨h1, h2⟩ := Prod.mk.injEq .. ▸ heq
              subst h1; subst h2
              exact hpm
            · exact ih hrest hm'
    · rw [if_neg hcol] at h
      exact ih h hm

/-- Every move a piece generator returns passed `final_checks`. -/
theorem pieceMoves_finalChecks {b : Board} {p : Piece} {pos : Pos} {ms : List Move} {m : Move}
    (h : pieceMoves b p pos = some ms) (hm : m ∈ ms) : finalChecks b m = some true := by
  rw [pieceMoves] at h
  cases hty : p.type <;> rw [hty] at h
  case empty =>
    simp only [Option.some.injEq] at h
    subst h
    simp at hm
  case pawn =>
    rw [pawnMoves] at h
    exact (optFilter_mem_of h hm).2
  case rook =>
    rw [rookMoves] at h
    exact (optFilter_mem_of h hm).2
  case knight =>
    rw [knightMoves] at h
    exact (optFilter_mem_of h hm).2
  case bishop =>
    rw [bishopMoves] at h
    exact (optFilter_mem_of h hm).2
  case queen =>
    rw [queenMoves] at h
    exact (optFilter_mem_of h hm).2
  case king =>
    rw [kingMoves] at h
    cases hchk : b.checked with
    | none => rw [hchk] at h; exact absurd h (by simp)
    | some chk =>
      rw [hchk] at h
      exact (optFilter_mem_of h hm).2

/-- A move that passed `final_checks` leaves the mover's king safe on the
updated grid. -/
theorem finalChecks_true_king_safe {b : Board} {m : Move}
    (h : finalChecks b m = some true) :
    inCheckColor (applyUpdates b.grid m.updates) b.colorMove = some false := by
  rw [finalChecks] at h
  split at h
  · exact absurd h (by simp)
  · rw [show (updateFromMove b m).checked
        = inCheckColor (applyUpdates b.grid m.updates) b.colorMove from rfl] at h
    cases hc : inCheckColor (applyUpdates b.grid m.updates) b.colorMove with
    | none => rw [hc] at h; exact absurd h (by simp)
    | some v =>
      rw [hc] at h
      simp only [Option.map_some', Option.some.injEq, Bool.not_eq_true'] at h
      exact congrArg some h

/-- C1: every move drawn from the current legal-move cache (the output of
the per-piece generators filtered by `final_checks`), once executed,
yields a board in which the moving side's king is not attacked by the
opponent: `in_check` for the mover's color on the resulting board reports
`false` (both on the board as mutated by `execute_move` and, equivalently,
before the cache recomputation step). -/
theorem c1_cached_move_execution_king_safe (b : Board) (pos : Pos) (ms : List Move) (m : Move)
    (hsync : computeCache b = some b.allMovesCache)
    (hmem : (pos, ms) ∈ b.allMovesCache) (hm : m ∈ ms) :
    inCheckColor (applyMove b m).grid b.colorMove = some false ∧
    ∀ b', executeMove b m = some b' → inCheckColor b'.grid b.colorMove = some false := by
  have hpm := cacheGo_mem hsync hmem
  have hfc := pieceMoves_finalChecks hpm hm
  have hsafe := finalChecks_true_king_safe hfc
  refine ⟨hsafe, ?_⟩
  intro b' hb'
  rw [executeMove] at hb'
  cases hcc : computeCache (applyMove b m) with
  | none => rw [hcc] at hb'; exact absurd hb' (by simp)
  | some c =>
    rw [hcc] at hb'
    simp only [Option.map_some', Option.some.injEq] at hb'
    subst hb'
    exact hsafe

/-- C6: the status evaluator classifies a position as checkmate exactly
when the legal-move cache is empty and the side to move is in check, and
as stalemate exactly when the cache is empty and that side is not in
check. -/
theorem c6_checkmate_stalemate_classification (b : Board) :
    (b.checkmated = some true ↔ b.allMovesCache.isEmpty = true ∧ b.checked = some true) ∧
    (b.stalemated = some true ↔ b.allMovesCache.isEmpty = true ∧ b.checked = some false) := by
  rw [Board.checkmated, Board.stalemated]
  by_cases hc : b.allMovesCache.isEmpty = true
  · cases hchk : b.checked with
    | none => simp [hc, hchk]
    | some v => cases v <;> simp [hc, hchk]
  · have hc' : b.allMovesCache.isEmpty = false := by
      simpa using hc
    simp [hc']

/-- C10: every operation that locates the king (`checked`, the
`final_checks` legality filter and, through them, move generation and the
terminal-status tests) needs a king of the queried color on the board:
when there is none, `find_king`'s unguarded `next(...)` raises instead of
returning a square, so the operation produces no value. -/
theorem c10_kingless_board_operations_raise (b : Board)
    (h : findKing b.grid b.colorMove = Option.none) :
    b.checked = Option.none ∧
    (b.allMovesCache.isEmpty = true → b.checkmated = Option.none ∧ b.stalemated = Option.none) ∧
    (∀ m : Move,
      findKing (applyUpdates b.grid m.updates) b.colorMove = Option.none →
      finalChecks b m ≠ some false →
      finalChecks b m = Option.none) := by
  have hchk : b.checked = Option.none := by
    rw [Board.checked, inCheckColor, h]
    rfl
  refine ⟨hchk, ?_, ?_⟩
  · intro hcache
    rw [Board.checkmated, Board.stalemated]
    simp [hcache, hchk]
  · intro m hsim hnf
    by_cases hrej : (!inBounds m.dst || (b.grid m.frm).color != b.colorMove
        || (b.grid m.dst).color == b.colorMove || obstruction b.grid m.frm m.dst) = true
    · exact absurd (by rw [finalChecks, if_pos hrej]) hnf
    · rw [finalChecks, if_neg hrej,
        show (updateFromMove b m).checked
          = inCheckColor (applyUpdates b.grid m.updates) b.colorMove from rfl,
        inCheckColor, hsim]
      rfl

/-! ## Concrete boards for witnesses and counterexamples -/

/-- Square-piece pair helper for concrete boards. -/
def pc (r c : Int) (p : Piece) : Pos × Piece := ((r, c), p)

def whitePawn : Piece := ⟨.white, .pawn⟩
def whiteRook : Piece := ⟨.white, .rook⟩
def whiteKing : Piece := ⟨.white, .king⟩
def blackKing : Piece := ⟨.black, .king⟩

/-- A board with a white pawn on e2, white king e1, black king e8, white
to move (before its cache is filled in). -/
def boardPK0 : Board :=
  { grid := gridOf [pc 6 4 whitePawn, pc 7 4 whiteKing, pc 0 4 blackKing],
    colorMove := .white,
    castlingPerm := ⟨false, false, false, false⟩,
    enpassantTarget := Option.none,
    allMovesCache := [] }

/-- `boardPK0` with its legal-move cache recomputed, as `set_fen` leaves
it. -/
def boardPK : Board :=
  { boardPK0 with allMovesCache := (computeCache boardPK0).getD [] }

/-- The white pawn's double step e2-e4 as generated by `Pawn.moves` on
`boardPK` (its `enpassant_target` field copies the board's, i.e. `None`). -/
def mvDouble : Move :=
  { piece := whitePawn, frm := (6, 4), dst := (4, 4) }

/-- The white pawn's single step e2-e3 as generated on `boardPK`. -/
def mvSingle : Move :=
  { piece := whitePawn, frm := (6, 4), dst := (5, 4) }

/-- The pawn's cached move list on `boardPK`. -/
def msPawn : List Move := [mvDouble, mvSingle]

/-- Witness for C1 at a concrete position: the cached double pawn step on
`boardPK` leaves the white king safe. -/
theorem c1_witness :
    computeCache boardPK = some boardPK.allMovesCache ∧
    inCheckColor (applyMove boardPK mvDouble).grid boardPK.colorMove = some false :=
  ⟨by decide,
   (c1_cached_move_execution_king_safe boardPK (6, 4) msPawn mvDouble
      (by decide) (by decide) (by decide)).1⟩

/-- A board with a white rook a1, black king e8 and no white king, white
to move. -/
def boardNK : Board :=
  { grid := gridOf [pc 7 0 whiteRook, pc 0 4 blackKing],
    colorMove := .white,
    castlingPerm := ⟨false, false, false, false⟩,
    enpassantTarget := Option.none,
    allMovesCache := [] }

/-- A rook move on the kingless board whose legality filter reaches the
king-safety simulation. -/
def mvNK : Move :=
  { piece := whiteRook, frm := (7, 0), dst := (6, 0), castlingFlag := some .rookMoved }

/-- Witness for C10: on `boardNK` (no white king) `find_king` has no
square to return, so `checked` and the legality filter raise. -/
theorem c10_witness :
    findKing boardNK.grid boardNK.colorMove = Option.none ∧
    boardNK.checked = Option.none ∧
    finalChecks boardNK mvNK = Option.none :=
  ⟨by decide,
   (c10_kingless_board_operations_raise boardNK (by decide)).1,
   (c10_kingless_board_operations_raise boardNK (by decide)).2.2 mvNK
      (by decide) (by decide)⟩

/-! ## Executed move sequences and castling-right monotonicity -/

/-- Execute a list of moves in order through `execute_move`; `none` if any
execution raises. -/
def execSeq (b : Board) : List Move → Option Board
  | [] => some b
  | m :: ms =>
    match executeMove b m with
    | Option.none => Option.none
    | some b' => execSeq b' ms

/-- `CastlingPerm.remove` never turns a right back on. -/
theorem CastlingPerm.remove_get_false {cp : CastlingPerm} {c f c' f'}
    (h : cp.get c f = false) : (cp.remove c' f').get c f = false := by
  cases c' <;> cases f' <;> cases c <;> cases f <;>
    simp_all [CastlingPerm.remove, CastlingPerm.get]

/-- One executed move never turns a castling right back on. -/
theorem applyMove_castling_false {b : Board} {m : Move} {c f}
    (h : b.castlingPerm.get c f = false) :
    (applyMove b m).castlingPerm.get c f = false := by
  rw [applyMove]
  cases hcf : m.castlingFlag with
  | none => exact h
  | some fl => cases fl <;> exact CastlingPerm.remove_get_false h

/-- `execute_move` leaves the castling rights of `applyMove`. -/
theorem executeMove_castlingPerm {b : Board} {m : Move} {b' : Board}
    (h : executeMove b m = some b') :
    b'.castlingPerm = (applyMove b m).castlingPerm := by
  rw [executeMove] at h
  cases hcc : computeCache (applyMove b m) with
  | none => rw [hcc] at h; exact absurd h (by simp)
  | some c =>
    rw [hcc] at h
    simp only [Option.map_some', Option.some.injEq] at h
    subst h
    rfl

/-- C9: along any sequence of executed moves, once a `(color, side)`
castling right is `false` it stays `false`: `execute_move` only ever
clears rights (through `CastlingPerm.remove`), never sets one. -/
theorem c9_castling_rights_monotone (b : Board) (ms : List Move) (b' : Board)
    (c : Color) (f : CastlingFlag)
    (h : execSeq b ms = some b') (hf : b.castlingPerm.get c f = false) :
    b'.castlingPerm.get c f = false := by
  induction ms generalizing b with
  | nil =>
    rw [execSeq] at h
    simp only [Option.some.injEq] at h
    subst h
    exact hf
  | cons m ms ih =>
    rw [execSeq] at h
    cases hex : executeMove b m with
    | none => rw [hex] at h; exact absurd h (by simp)
    | some b1 =>
      rw [hex] at h
      refine ih b1 h ?_
      rw [executeMove_castlingPerm hex]
      exact applyMove_castling_false hf

/-- Two kings alone, white to move, with white's queen-side right already
lost. -/
def boardKK : Board :=
  { grid := gridOf [pc 7 4 whiteKing, pc 0 4 blackKing],
    colorMove := .white,
    castlingPerm := ⟨true, false, true, true⟩,
    enpassantTarget := Option.none,
    allMovesCache := [] }

/-- A generated-shape white king move e1-d1. -/
def mvKK : Move :=
  { piece := whiteKing, frm := (7, 4), dst := (7, 3), castlingFlag := some .kingMoved }

/-- Witness for C9: after executing a king move from `boardKK`, white's
already-false queen-side right is still false. -/
theorem c9_witness :
    (execSeq boardKK [mvKK]).map (fun b => b.castlingPerm.get .white .queenSide)
      = some false := by
  have hsome : (execSeq boardKK [mvKK]).isSome = true := by decide
  cases hex : execSeq boardKK [mvKK] with
  | none => rw [hex] at hsome; cases hsome
  | some b' =>
    rw [Option.map_some']
    exact congrArg some
      (c9_castling_rights_monotone boardKK [mvKK] b' .white .queenSide hex (by decide))

/-- C7: requesting execution of a from/to pair that is not in the current
legal-move cache is answered with the "MOVE DOES NOT EXIST" error and the
board is returned unchanged; conversely a successful execution always
stems from a move found in the cache for its from-square. -/
theorem c7_illegal_move_rejected (b : Board) (frm dst : Pos) :
    ((∀ e ∈ b.allMovesCache, e.1 = frm → ∀ m ∈ e.2, m.dst ≠ dst) →
      chooseMove b frm dst = (some "MOVE DOES NOT EXIST", b)) ∧
    (∀ b', chooseMove b frm dst = (Option.none, b') →
      ∃ ms m, (frm, ms) ∈ b.allMovesCache ∧ m ∈ ms ∧ m.dst = dst ∧
        executeMove b m = some b') := by
  constructor
  · intro h
    rw [chooseMove]
    cases hfind : getMove b frm dst with
    | none => rfl
    | some m =>
      exfalso
      rw [getMove] at hfind
      cases hout : b.allMovesCache.find? (fun e => e.1 == frm) with
      | none => rw [hout] at hfind; cases hfind
      | some e =>
        rw [hout] at hfind
        have he : e ∈ b.allMovesCache := List.mem_of_find?_eq_some hout
        have he1 : e.1 = frm := by simpa using List.find?_some hout
        have hm : m ∈ e.2 := List.mem_of_find?_eq_some hfind
        have hmd : m.dst = dst := by simpa using List.find?_some hfind
        exact h e he he1 m hm hmd
  · intro b' hb'
    rw [chooseMove] at hb'
    cases hfind : getMove b frm dst with
    | none => rw [hfind] at hb'; simp at hb'
    | some m =>
      simp only [hfind] at hb'
      cases hex : executeMove b m with
      | none => simp only [hex] at hb'; simp at hb'
      | some b'' =>
        simp only [hex] at hb'
        simp only [Prod.mk.injEq] at hb'
        rw [getMove] at hfind
        cases hout : b.allMovesCache.find? (fun e => e.1 == frm) with
        | none => rw [hout] at hfind; cases hfind
        | some e =>
          rw [hout] at hfind
          have he : e ∈ b.allMovesCache := List.mem_of_find?_eq_some hout
          have he1 : e.1 = frm := by simpa using List.find?_some hout
          have hm : m ∈ e.2 := List.mem_of_find?_eq_some hfind
          have hmd : m.dst = dst := by simpa using List.find?_some hfind
          refine ⟨e.2, m, ?_, hm, hmd, ?_⟩
          · have : (frm, e.2) = e := by rw [← he1]
            rw [this]
            exact he
          · rw [hex, hb'.2]

/-- Witness for C7: on `boardPK` the pair a8-b7 is not in the cache, so it
is rejected and the board is unchanged. -/
theorem c7_witness :
    chooseMove boardPK (0, 0) (1, 1) = (some "MOVE DOES NOT EXIST", boardPK) :=
  (c7_illegal_move_rejected boardPK (0, 0) (1, 1)).1 (by decide)

/-! ## Characterizing `obstruction` along rays -/

theorem intRange_self (a : Int) : intRange a a = [] := by
  simp [intRange]

theorem intRange_scaled (a s : Int) (k : Nat) (hs : s = 1 ∨ s = -1) :
    intRange a (a + s * k) = (List.range k).map fun (i : Nat) => a + s * (i : Int) := by
  rcases hs with rfl | rfl
  · rw [intRange]
    by_cases hk : 0 < k
    · rw [if_pos (by omega), show (a + 1 * k - a).toNat = k by omega]
      apply List.map_congr_left
      intro i _
      omega
    · have hk0 : k = 0 := by omega
      subst hk0
      norm_num
  · rw [intRange]
    rw [if_neg (by omega), show (a - (a + -1 * k)).toNat = k by omega]
    apply List.map_congr_left
    intro i _
    omega

theorem any_of_map {α β : Type} (l : List α) (f : α → β) (p : β → Bool) :
    (l.map f).any p = l.any fun i => p (f i) := by
  induction l with
  | nil => rfl
  | cons x xs ih => simp [List.any_cons, ih]

/-- Nonemptiness of a mapped range. -/
theorem range_map_not_isEmpty {α : Type} (f : Nat → α) {k : Nat} (hk : k ≠ 0) :
    ¬((List.range k).map f).isEmpty = true := by
  simp only [List.isEmpty_iff, List.map_eq_nil_iff, List.range_eq_nil]
  exact hk

/-- Emptiness of a `any` over the squares of a ray, rephrased as emptiness
of all strictly-between squares (`point 0` is the origin itself and is
skipped by the `≠ frm` test). -/
theorem range_ray_any_false (g : Grid) (frm : Pos) (point : Nat → Pos) (k : Nat)
    (h0 : point 0 = frm) (hne : ∀ j, 1 ≤ j → point j ≠ frm) :
    (((List.range k).any fun i =>
        decide (point i ≠ frm) && (g (point i)).isOccupied) = false ↔
      ∀ j, 1 ≤ j → j < k → (g (point j)).isOccupied = false) := by
  rw [Bool.eq_false_iff, ne_eq, List.any_eq_true]
  constructor
  · intro h j hj1 hjk
    by_contra hocc
    have hocc' : (g (point j)).isOccupied = true := by
      simpa using hocc
    refine h ⟨j, List.mem_range.mpr hjk, ?_⟩
    simp only [Bool.and_eq_true, decide_eq_true_eq]
    exact ⟨hne j hj1, hocc'⟩
  · rintro h ⟨i, hirange, hp⟩
    simp only [Bool.and_eq_true, decide_eq_true_eq] at hp
    rcases Nat.eq_zero_or_pos i with rfl | hi
    · exact hp.1 h0
    · have := h i hi (List.mem_range.mp hirange)
      rw [this] at hp
      cases hp.2

/-- `obstruction` along a diagonal ray: false iff no piece strictly
between the two endpoints. -/
theorem obstruction_ray_diag (g : Grid) (frm : Pos) (s₁ s₂ : Int) (k : Nat)
    (h1 : s₁ = 1 ∨ s₁ = -1) (h2 : s₂ = 1 ∨ s₂ = -1) :
    (obstruction g frm (frm.1 + s₁ * k, frm.2 + s₂ * k) = false ↔
      ∀ j : Nat, 1 ≤ j → j < k →
        (g (frm.1 + s₁ * j, frm.2 + s₂ * j)).isOccupied = false) := by
  simp only [obstruction]
  rw [intRange_scaled _ _ _ h1, intRange_scaled _ _ _ h2]
  simp only [List.length_map, List.length_range, Nat.min_self]
  by_cases hk1 : k = 1
  · subst hk1
    rw [if_pos (by simp)]
    constructor
    · intro _ j hj1 hj2; omega
    · intro _; trivial
  · rw [if_neg (by simpa using hk1)]
    by_cases hk0 : k = 0
    · subst hk0
      simp only [List.range_zero, List.map_nil]
      rw [if_neg (by simp), if_neg (by simp)]
      simp only [List.any_nil]
      constructor
      · intro _ j hj1 hj2; omega
      · intro _; trivial
    · rw [if_pos ⟨range_map_not_isEmpty _ hk0, range_map_not_isEmpty _ hk0⟩,
        List.zip_map', any_of_map]
      exact range_ray_any_false g frm
        (fun i => (frm.1 + s₁ * (i : Int), frm.2 + s₂ * (i : Int))) k
        (by simp [Prod.ext_iff])
        (fun j hj he => by
          have := congrArg Prod.fst he
          simp only at this
          rcases h1 with rfl | rfl <;> omega)

/-- `obstruction` along a file ray (the row moves, the column is fixed). -/
theorem obstruction_ray_row (g : Grid) (frm : Pos) (s : Int) (k : Nat)
    (hs : s = 1 ∨ s = -1) :
    (obstruction g frm (frm.1 + s * k, frm.2) = false ↔
      ∀ j : Nat, 1 ≤ j → j < k →
        (g (frm.1 + s * j, frm.2)).isOccupied = false) := by
  simp only [obstruction]
  rw [intRange_scaled _ _ _ hs, intRange_self]
  simp only [List.length_map, List.length_range, List.length_nil, Nat.min_zero,
    List.isEmpty_nil]
  rw [if_neg (by simp), if_neg (by simp)]
  by_cases hk0 : k = 0
  · subst hk0
    simp only [List.range_zero, List.map_nil]
    rw [if_neg (by simp)]
    simp only [List.any_nil]
    constructor
    · intro _ j hj1 hj2; omega
    · intro _; trivial
  · rw [if_pos (range_map_not_isEmpty _ hk0), any_of_map]
    exact range_ray_any_false g frm (fun i => (frm.1 + s * (i : Int), frm.2)) k
      (by simp [Prod.ext_iff])
      (fun j hj he => by
        have := congrArg Prod.fst he
        simp only at this
        rcases hs with rfl | rfl <;> omega)

/-- `obstruction` along a rank ray (the column moves, the row is fixed). -/
theorem obstruction_ray_col (g : Grid) (frm : Pos) (s : Int) (k : Nat)
    (hs : s = 1 ∨ s = -1) :
    (obstruction g frm (frm.1, frm.2 + s * k) = false ↔
      ∀ j : Nat, 1 ≤ j → j < k →
        (g (frm.1, frm.2 + s * j)).isOccupied = false) := by
  simp only [obstruction]
  rw [intRange_scaled _ _ _ hs, intRange_self]
  simp only [List.length_map, List.length_range, List.length_nil, Nat.zero_min,
    List.isEmpty_nil]
  rw [if_neg (by simp), if_neg (by simp), if_neg (by simp)]
  by_cases hk0 : k = 0
  · subst hk0
    simp only [List.range_zero, List.map_nil, List.any_nil]
    constructor
    · intro _ j hj1 hj2; omega
    · intro _; trivial
  · rw [any_of_map]
    exact range_ray_any_false g frm (fun i => (frm.1, frm.2 + s * (i : Int))) k
      (by simp [Prod.ext_iff])
      (fun j hj he => by
        have := congrArg Prod.snd he
        simp only at this
        rcases hs with rfl | rfl <;> omega)

/-- `obstruction` from `frm` to the point of any generator ray at distance
`k` is false exactly when every strictly-between ray square is empty. -/
theorem obstruction_scale (g : Grid) (frm : Pos) (q : Pos) (k : Nat)
    (hq : q ∈ diagQuadrants ∨ q ∈ perpSides) :
    (obstruction g frm (addPos frm (scale q k)) = false ↔
      ∀ j : Nat, 1 ≤ j → j < k →
        (g (addPos frm (scale q j))).isOccupied = false) := by
  have hrew : ∀ (s₁ s₂ : Int), ∀ j : Nat,
      addPos frm (scale (s₁, s₂) j) = ((frm.1 + s₁ * j, frm.2 + s₂ * j) : Pos) :=
    fun s₁ s₂ j => rfl
  rcases hq with hd | hp
  · simp only [diagQuadrants, List.mem_cons, List.not_mem_nil, or_false] at hd
    rcases hd with rfl | rfl | rfl | rfl <;>
      · simp only [hrew]
        exact obstruction_ray_diag g frm _ _ k (by norm_num) (by norm_num)
  · simp only [perpSides, List.mem_cons, List.not_mem_nil, or_false] at hp
    rcases hp with rfl | rfl | rfl | rfl
    · simp only [hrew, zero_mul, add_zero]
      exact obstruction_ray_col g frm 1 k (Or.inl rfl)
    · simp only [hrew, zero_mul, add_zero]
      exact obstruction_ray_row g frm 1 k (Or.inl rfl)
    · simp only [hrew, zero_mul, add_zero]
      exact obstruction_ray_col g frm (-1) k (Or.inr rfl)
    · simp only [hrew, zero_mul, add_zero]
      exact obstruction_ray_row g frm (-1) k (Or.inr rfl)

/-! ## Pawn move generation: C4, C5, C8 -/

/-- A move that passed `final_checks` was not rejected by the four
up-front criteria. -/
theorem finalChecks_true_not_rejected {b : Board} {m : Move}
    (h : finalChecks b m = some true) :
    inBounds m.dst = true ∧ ((b.grid m.frm).color == b.colorMove) = true ∧
    ((b.grid m.dst).color == b.colorMove) = false ∧
    obstruction b.grid m.frm m.dst = false := by
  rw [finalChecks] at h
  by_cases hrej : (!inBounds m.dst || (b.grid m.frm).color != b.colorMove
      || (b.grid m.dst).color == b.colorMove || obstruction b.grid m.frm m.dst) = true
  · rw [if_pos hrej] at h
    exact absurd h (by simp)
  · simp only [Bool.or_eq_true, not_or, Bool.not_eq_true, Bool.not_eq_true',
      bne_eq_false_iff_eq, beq_eq_false_iff_ne, ne_eq] at hrej
    obtain ⟨⟨⟨h1, h2⟩, h3⟩, h4⟩ := hrej
    refine ⟨by simpa using h1, by simp [h2], by simpa using h3, h4⟩

/-- Anatomy of `Pawn.moves`: every generated move passed `final_checks`
and is a side capture, the double step, or the single step, each with its
generation guard. -/
theorem pawnMoves_shape {b : Board} {frm : Pos} {c : Color} {ms : List Move} {m : Move}
    (h : pawnMoves b frm c = some ms) (hm : m ∈ ms) :
    finalChecks b m = some true ∧
    ((∃ side ∈ ([1, -1] : List Int),
        m = { piece := ⟨c, .pawn⟩, frm := frm, dst := addPos frm (c.dir, side),
              promote := (addPos frm (c.dir, side)).1 == c.other.backRank } ∧
        inBounds (addPos frm (c.dir, side)) = true ∧
        ((b.grid (addPos frm (c.dir, side))).color == c.other) = true) ∨
     (m = { piece := ⟨c, .pawn⟩, frm := frm, dst := addPos frm (2 * c.dir, 0),
            enpassantTarget := b.enpassantTarget } ∧
        (frm.1 == c.pawnRank) = true ∧
        (b.grid (addPos frm (2 * c.dir, 0))).isOccupied = false) ∨
     (m = { piece := ⟨c, .pawn⟩, frm := frm, dst := addPos frm (c.dir, 0),
            promote := (addPos frm (c.dir, 0)).1 == c.other.backRank } ∧
        (b.grid (addPos frm (c.dir, 0))).isOccupied = false)) := by
  simp only [pawnMoves] at h
  obtain ⟨hcand, hfc⟩ := optFilter_mem_of h hm
  refine ⟨hfc, ?_⟩
  rcases List.mem_append.mp hcand with h12 | h3
  · rcases List.mem_append.mp h12 with h1 | h2
    · left
      obtain ⟨side, hside, heq⟩ := List.mem_filterMap.mp h1
      refine ⟨side, hside, ?_⟩
      by_cases hcond : (inBounds (addPos frm (c.dir, side))
          && (b.grid (addPos frm (c.dir, side))).color == c.other) = true
      · rw [if_pos hcond] at heq
        obtain ⟨hb1, hb2⟩ := Bool.and_eq_true_iff.mp hcond
        exact ⟨(Option.some.injEq .. ▸ heq).symm, hb1, hb2⟩
      · rw [if_neg hcond] at heq
        cases heq
    · right; left
      by_cases hcond : (frm.1 == c.pawnRank
          && !(b.grid (addPos frm (2 * c.dir, 0))).isOccupied) = true
      · rw [if_pos hcond] at h2
        obtain ⟨hb1, hb2⟩ := Bool.and_eq_true_iff.mp hcond
        rcases List.mem_singleton.mp h2 with rfl
        exact ⟨rfl, hb1, by simpa using hb2⟩
      · rw [if_neg hcond] at h2
        cases h2
  · right; right
    by_cases hcond : (!(b.grid (addPos frm (c.dir, 0))).isOccupied) = true
    · rw [if_pos hcond] at h3
      rcases List.mem_singleton.mp h3 with rfl
      exact ⟨rfl, by simpa using hcond⟩
    · rw [if_neg hcond] at h3
      cases h3

/-- C4 (amended): the double forward step appears among a pawn's generated
moves only if the pawn stands on its color's starting rank and both the
intermediate square and the destination square are empty; the generated
move's `enpassant_target` field is a copy of the board's current en
passant target (this iteration has no `EnPassantTarget` flag). -/
theorem c4_double_step_requires_start_rank_and_clear_path
    (b : Board) (frm : Pos) (c : Color) (ms : List Move) (m : Move)
    (hc : c = .white ∨ c = .black)
    (h : pawnMoves b frm c = some ms) (hm : m ∈ ms)
    (hdst : m.dst = addPos frm (2 * c.dir, 0)) :
    frm.1 = c.pawnRank ∧
    (b.grid (addPos frm (c.dir, 0))).isOccupied = false ∧
    (b.grid (addPos frm (2 * c.dir, 0))).isOccupied = false ∧
    m.enpassantTarget = b.enpassantTarget := by
  obtain ⟨hfc, hshape⟩ := pawnMoves_shape h hm
  have hdir : c.dir = 1 ∨ c.dir = -1 := by
    rcases hc with rfl | rfl
    · exact Or.inr rfl
    · exact Or.inl rfl
  rcases hshape with ⟨side, hside, hmeq, _, _⟩ | ⟨hmeq, hrank, hocc⟩ | ⟨hmeq, hocc⟩
  · exfalso
    rw [hmeq] at hdst
    have := congrArg Prod.snd hdst
    simp only [addPos] at this
    simp only [List.mem_cons, List.not_mem_nil, or_false] at hside
    rcases hside with rfl | rfl <;> omega
  · have hrest := finalChecks_true_not_rejected hfc
    have hobs := hrest.2.2.2
    rw [hmeq]
    refine ⟨by simpa using hrank, ?_, hocc, rfl⟩
    rw [hmeq] at hobs
    simp only at hobs
    rcases hdir with hd | hd <;> rw [hd] at hobs ⊢
    · have har : addPos frm (2 * 1, 0) = ((frm.1 + 1 * ((2 : Nat) : Int), frm.2) : Pos) := by
        simp [addPos, Prod.ext_iff]
      rw [har] at hobs
      have := (obstruction_ray_row b.grid frm 1 2 (Or.inl rfl)).mp hobs 1
        (le_refl 1) (by omega)
      have har1 : addPos frm (1, 0) = ((frm.1 + 1 * ((1 : Nat) : Int), frm.2) : Pos) := by
        simp [addPos, Prod.ext_iff]
      rw [har1]
      exact this
    · have har : addPos frm (2 * -1, 0) = ((frm.1 + -1 * ((2 : Nat) : Int), frm.2) : Pos) := by
        simp [addPos, Prod.ext_iff]
      rw [har] at hobs
      have := (obstruction_ray_row b.grid frm (-1) 2 (Or.inr rfl)).mp hobs 1
        (le_refl 1) (by omega)
      have har1 : addPos frm (-1, 0) = ((frm.1 + -1 * ((1 : Nat) : Int), frm.2) : Pos) := by
        simp [addPos, Prod.ext_iff]
      rw [har1]
      exact this
  · exfalso
    rw [hmeq] at hdst
    have := congrArg Prod.fst hdst
    simp only [addPos] at this
    rcases hdir with hd | hd <;> rw [hd] at this <;> omega

/-- Witness for C4 (amended) at `boardPK`: the cached double step e2-e4
required e2 on the starting rank and e3/e4 empty, and copies the board's
(empty) en passant target. -/
theorem c4_witness :
    pawnMoves boardPK (6, 4) .white = some msPawn ∧
    (((6 : Int), (4 : Int)) : Pos).1 = Color.white.pawnRank ∧
    (boardPK.grid (addPos (6, 4) (Color.white.dir, 0))).isOccupied = false ∧
    mvDouble.enpassantTarget = boardPK.enpassantTarget := by
  have h := c4_double_step_requires_start_rank_and_clear_path boardPK (6, 4) .white
    msPawn mvDouble (Or.inl rfl) (by decide) (by decide) (by decide)
  exact ⟨by decide, h.1, h.2.1, h.2.2.2⟩

/-- The claim's "carries the EnPassantTarget flag", read against this
iteration's `Move` (which has no flag variants): being flagged as
establishing a new en passant target at the landing square, which is the
value `execute_move` copies back into `board.enpassant_target`. -/
def carriesEnPassantTargetFlag (m : Move) : Prop := m.enpassantTarget = some m.dst

/-- Counterexample to C4 as stated: the double step generated on
`boardPK` does not carry an en-passant-target mark — its
`enpassant_target` field is the stale board value `None`, not the landing
square. -/
theorem c4_counterexample :
    pawnMoves boardPK (6, 4) .white = some msPawn ∧ mvDouble ∈ msPawn ∧
    ¬carriesEnPassantTargetFlag mvDouble := by
  refine ⟨by decide, by decide, ?_⟩
  rw [carriesEnPassantTargetFlag]
  decide

/-- C5 (code evaluated at the failing input): executing the cached double
pawn advance e2-e4 from `boardPK` leaves `enpassant_target = None` — the
stale copy of the pre-move target — although the landing square is e4,
so the en passant target is not the landing square. -/
theorem c5_double_step_leaves_stale_target :
    (((6, 4), msPawn) ∈ boardPK.allMovesCache ∧ mvDouble ∈ msPawn) ∧
    (executeMove boardPK mvDouble).map Board.enpassantTarget = some Option.none ∧
    mvDouble.dst = ((4 : Int), (4 : Int)) := by decide

/-- A pawn promotion move writes a queen at the destination and empties
the origin. -/
theorem applyMove_grid_promotion {b : Board} {m : Move}
    (hep : m.enpassantCapture = Option.none) (hcf : m.castlingFlag = Option.none)
    (hpr : m.promote = true) (hne : m.frm ≠ m.dst) :
    (applyMove b m).grid m.dst = (⟨m.piece.color, .queen⟩ : Piece) ∧
    (applyMove b m).grid m.frm = Piece.emptyPiece := by
  have hupd : m.updates
      = [(m.frm, Piece.emptyPiece), (m.dst, (⟨m.piece.color, .queen⟩ : Piece))] := by
    simp [Move.updates, hep, hcf, hpr]
  have hgrid : (applyMove b m).grid = applyUpdates b.grid m.updates := rfl
  rw [hgrid, hupd]
  constructor
  · simp [applyUpdates]
  · simp [applyUpdates, hne]

/-- C8: every generated pawn move landing on the opponent's back rank
carries the promotion mark, and executing it leaves a queen of the
mover's color on the destination square and an empty origin square. -/
theorem c8_promotion_queen (b : Board) (frm : Pos) (c : Color) (ms : List Move) (m : Move)
    (hc : c = .white ∨ c = .black)
    (h : pawnMoves b frm c = some ms) (hm : m ∈ ms)
    (hland : m.dst.1 = c.other.backRank) :
    m.promote = true ∧
    (applyMove b m).grid m.dst = (⟨c, .queen⟩ : Piece) ∧
    (applyMove b m).grid m.frm = Piece.emptyPiece := by
  obtain ⟨hfc, hshape⟩ := pawnMoves_shape h hm
  have hdir : c.dir = 1 ∨ c.dir = -1 := by
    rcases hc with rfl | rfl
    · exact Or.inr rfl
    · exact Or.inl rfl
  have main : m.promote = true ∧ m.enpassantCapture = Option.none ∧
      m.castlingFlag = Option.none ∧ m.frm ≠ m.dst ∧ m.piece.color = c := by
    rcases hshape with ⟨side, hside, hmeq, _, _⟩ | ⟨hmeq, hrank, hocc⟩ | ⟨hmeq, hocc⟩
    · rw [hmeq] at hland ⊢
      refine ⟨by simpa using hland, rfl, rfl, ?_, rfl⟩
      intro he
      have := congrArg Prod.fst he
      simp only [addPos] at this
      rcases hdir with hd | hd <;> rw [hd] at this <;> omega
    · exfalso
      rw [hmeq] at hland
      simp only [addPos] at hland
      have hr : frm.1 = c.pawnRank := by simpa using hrank
      rcases hc with rfl | rfl <;>
        simp only [Color.pawnRank, Color.dir, Color.other, Color.backRank] at hland hr <;>
        omega
    · rw [hmeq] at hland ⊢
      refine ⟨by simpa using hland, rfl, rfl, ?_, rfl⟩
      intro he
      have := congrArg Prod.fst he
      simp only [addPos] at this
      rcases hdir with hd | hd <;> rw [hd] at this <;> omega
  obtain ⟨hpr, hep, hcf, hne, hcol⟩ := main
  have := applyMove_grid_promotion (b := b) hep hcf hpr hne
  rw [hcol] at this
  exact ⟨hpr, this.1, this.2⟩

/-- A board with a white pawn on a7 about to promote, plus both kings. -/
def boardPromo : Board :=
  { grid := gridOf [pc 1 0 whitePawn, pc 7 4 whiteKing, pc 0 7 blackKing],
    colorMove := .white,
    castlingPerm := ⟨false, false, false, false⟩,
    enpassantTarget := Option.none,
    allMovesCache := [] }

/-- The promotion move a7-a8 as generated on `boardPromo`. -/
def mvPromo : Move :=
  { piece := whitePawn, frm := (1, 0), dst := (0, 0), promote := true }

/-- Witness for C8: the generated promotion move on `boardPromo` is
flagged and executing it leaves a white queen on a8 and an empty a7. -/
theorem c8_witness :
    pawnMoves boardPromo (1, 0) .white = some [mvPromo] ∧
    mvPromo.promote = true ∧
    (applyMove boardPromo mvPromo).grid mvPromo.dst = (⟨.white, .queen⟩ : Piece) ∧
    (applyMove boardPromo mvPromo).grid mvPromo.frm = Piece.emptyPiece := by
  have h := c8_promotion_queen boardPromo (1, 0) .white [mvPromo] mvPromo
    (Or.inl rfl) (by decide) (by decide) (by decide)
  exact ⟨by decide, h.1, h.2.1, h.2.2⟩

/-! ## Castling: C3 -/

/-- The king-side castling move of `King.moves` (king two files toward the
h-file). -/
def castleShortMove (c : Color) : Move :=
  { piece := ⟨c, .king⟩, frm := (c.backRank, 4), dst := addPos (c.backRank, 4) (0, 2),
    castlingFlag := some .kingSide }

/-- The queen-side castling move of `King.moves`. -/
def castleLongMove (c : Color) : Move :=
  { piece := ⟨c, .king⟩, frm := (c.backRank, 4), dst := addPos (c.backRank, 4) (0, -2),
    castlingFlag := some .queenSide }

/-- A piece that is not truthy is the `Empty` kind. -/
theorem isOccupied_false_type {p : Piece} (h : p.isOccupied = false) :
    p.type = .empty := by
  simpa [Piece.isOccupied] using h

/-- Squares within the grid are exactly the iteration squares. -/
theorem mem_squares64_of_inBounds {p : Pos} (h : inBounds p = true) : p ∈ squares64 := by
  rw [inBounds] at h
  simp only [Bool.and_eq_true, decide_eq_true_eq, max_le_iff, ge_iff_le, le_min_iff] at h
  obtain ⟨⟨h1, h2⟩, h3, h4⟩ := h
  rw [squares64]
  simp only [List.mem_map, List.mem_range]
  refine ⟨(p.1 * 8 + p.2).toNat, by omega, ?_⟩
  obtain ⟨r, cc⟩ := p
  simp only at h1 h2 h3 h4
  rw [Prod.mk.injEq]
  constructor <;> omega

/-- A king of `c` standing on an in-grid square makes `find_king` return a
value. -/
theorem findKing_isSome_of_king {g : Grid} {c : Color} {p : Pos}
    (hin : inBounds p = true) (hk : g p = (⟨c, .king⟩ : Piece)) :
    (findKing g c).isSome = true := by
  rw [findKing, List.find?_isSome]
  refine ⟨p, mem_squares64_of_inBounds hin, ?_⟩
  rw [hk]
  simp

theorem inCheckColor_isSome_of_king {g : Grid} {c : Color} {p : Pos}
    (hin : inBounds p = true) (hk : g p = (⟨c, .king⟩ : Piece)) :
    (inCheckColor g c).isSome = true := by
  rw [inCheckColor, Option.isSome_map']
  exact findKing_isSome_of_king hin hk

/-- `final_checks` cannot raise when the simulated board still localizes a
king of the side to move. -/
theorem finalChecks_isSome_of_sim {b : Board} {m : Move}
    (hsim : (inCheckColor (applyUpdates b.grid m.updates) b.colorMove).isSome = true) :
    (finalChecks b m).isSome = true := by
  rw [finalChecks]
  split
  · rfl
  · rw [show (updateFromMove b m).checked
        = inCheckColor (applyUpdates b.grid m.updates) b.colorMove from rfl,
      Option.isSome_map']
    exact hsim

/-- The destination square of a non-promoting, non-en-passant move holds
the moved piece after the updates, when no castling rook relocation is
involved. -/
theorem updates_dst_no_castle {g : Grid} {m : Move}
    (hp : m.promote = false) (hep : m.enpassantCapture = Option.none)
    (hcf : m.castlingFlag = some .kingMoved ∨ m.castlingFlag = some .rookMoved
        ∨ m.castlingFlag = Option.none) :
    applyUpdates g m.updates m.dst = m.piece := by
  have hupd : m.updates = [(m.frm, Piece.emptyPiece), (m.dst, m.piece)] := by
    rcases hcf with h | h | h <;> simp [Move.updates, hp, hep, h]
  rw [hupd]
  simp [applyUpdates]

/-- As above, also for castling flags, when the destination is none of the
rook relocation squares. -/
theorem updates_dst_castle {g : Grid} {m : Move}
    (hp : m.promote = false) (hep : m.enpassantCapture = Option.none)
    (h3 : m.dst ≠ (m.piece.color.backRank, 3)) (h0 : m.dst ≠ (m.piece.color.backRank, 0))
    (h5 : m.dst ≠ (m.piece.color.backRank, 5)) (h7 : m.dst ≠ (m.piece.color.backRank, 7)) :
    applyUpdates g m.updates m.dst = m.piece := by
  cases hcf : m.castlingFlag with
  | none => exact updates_dst_no_castle hp hep (Or.inr (Or.inr hcf))
  | some fl =>
    cases fl
    case kingMoved => exact updates_dst_no_castle hp hep (Or.inl hcf)
    case rookMoved => exact updates_dst_no_castle hp hep (Or.inr (Or.inl hcf))
    case queenSide =>
      have hupd : m.updates = [(m.frm, Piece.emptyPiece), (m.dst, m.piece),
          ((m.piece.color.backRank, 3), (⟨m.piece.color, .rook⟩ : Piece)),
          ((m.piece.color.backRank, 0), Piece.emptyPiece)] := by
        simp [Move.updates, hp, hep, hcf]
      rw [hupd]
      simp [applyUpdates, h3, h0]
    case kingSide =>
      have hupd : m.updates = [(m.frm, Piece.emptyPiece), (m.dst, m.piece),
          ((m.piece.color.backRank, 5), (⟨m.piece.color, .rook⟩ : Piece)),
          ((m.piece.color.backRank, 7), Piece.emptyPiece)] := by
        simp [Move.updates, hp, hep, hcf]
      rw [hupd]
      simp [applyUpdates, h5, h7]

/-- Any king-shaped move from the candidates of `King.moves` keeps a king
on the simulated board, so its `final_checks` cannot raise. -/
theorem finalChecks_isSome_king_move {b : Board} {c : Color} {x : Move}
    (hcm : b.colorMove = c)
    (hpieceeq : x.piece = (⟨c, .king⟩ : Piece))
    (hp : x.promote = false) (hep : x.enpassantCapture = Option.none)
    (hin : inBounds x.dst = true)
    (hflag : x.castlingFlag = some .kingMoved ∨
      (x.castlingFlag = some .kingSide ∧ x.dst = ((c.backRank, 6) : Pos)) ∨
      (x.castlingFlag = some .queenSide ∧ x.dst = ((c.backRank, 2) : Pos))) :
    (finalChecks b x).isSome = true := by
  apply finalChecks_isSome_of_sim
  rw [hcm]
  refine inCheckColor_isSome_of_king (p := x.dst) hin ?_
  rcases hflag with hf | ⟨hf, hd⟩ | ⟨hf, hd⟩
  · rw [updates_dst_no_castle hp hep (Or.inl hf), hpieceeq]
  · rw [updates_dst_castle hp hep ?_ ?_ ?_ ?_, hpieceeq] <;>
      rw [hd, hpieceeq] <;> simp [Prod.ext_iff]
  · rw [updates_dst_castle hp hep ?_ ?_ ?_ ?_, hpieceeq] <;>
      rw [hd, hpieceeq] <;> simp [Prod.ext_iff]

/-- Generator rays only produce in-grid squares. -/
theorem rayMoves_inBounds {dirs : List Pos} {pos : Pos} {d : Nat} {m : Pos}
    (h : m ∈ rayMoves dirs pos d) : inBounds m = true := by
  simp only [rayMoves, List.mem_flatMap, List.mem_filter] at h
  obtain ⟨q, _, _, h2⟩ := h
  exact h2

/-- The non-castling candidate list of `King.moves` (proof scaffolding:
definitionally the `normals` list in `kingMoves`). -/
def kingNormalCands (c : Color) (frm : Pos) : List Move :=
  (diagonalMoves frm 1 ++ perpendicularMoves frm 1).map fun dst =>
    { piece := ⟨c, .king⟩, frm := frm, dst := dst, castlingFlag := some .kingMoved }

/-- C3 (amended): with the side to move `c`, its king located on its home
square `(back rank, 4)`, the generated king moves contain the king-side
castling move exactly when the `(c, KingSide)` right holds, the two
squares between king and rook are empty, the king's current square and
the square it passes through are not attacked in the current position,
and the king is not reported in check in the simulated position after the
castle (which is how the code validates the landing square); queen-side
symmetrically with its own squares. -/
theorem c3_castle_move_generation (b : Board) (c : Color)
    (hc : c = .white ∨ c = .black)
    (hcm : b.colorMove = c)
    (hwf : ∀ p : Pos, (b.grid p).type = .empty → (b.grid p).color = .none)
    (hfind : findKing b.grid c = some ((c.backRank, 4) : Pos))
    (hk : b.grid (c.backRank, 4) = (⟨c, .king⟩ : Piece)) :
    ∃ ms, kingMoves b (c.backRank, 4) c = some ms ∧
      (castleShortMove c ∈ ms ↔
        (b.castlingPerm.get c .kingSide = true ∧
         (b.grid ((c.backRank, 5) : Pos)).isOccupied = false ∧
         (b.grid ((c.backRank, 6) : Pos)).isOccupied = false ∧
         kingcheckSafe b.grid ((c.backRank, 4) : Pos) c = true ∧
         kingcheckSafe b.grid ((c.backRank, 5) : Pos) c = true ∧
         inCheckColor (applyUpdates b.grid (castleShortMove c).updates) c = some false)) ∧
      (castleLongMove c ∈ ms ↔
        (b.castlingPerm.get c .queenSide = true ∧
         (b.grid ((c.backRank, 1) : Pos)).isOccupied = false ∧
         (b.grid ((c.backRank, 2) : Pos)).isOccupied = false ∧
         (b.grid ((c.backRank, 3) : Pos)).isOccupied = false ∧
         kingcheckSafe b.grid ((c.backRank, 4) : Pos) c = true ∧
         kingcheckSafe b.grid ((c.backRank, 3) : Pos) c = true ∧
         inCheckColor (applyUpdates b.grid (castleLongMove c).updates) c = some false)) := by
  have hbr : c.backRank = 7 ∨ c.backRank = 0 := by
    rcases hc with rfl | rfl
    · exact Or.inl rfl
    · exact Or.inr rfl
  have hcnone : (Color.none == c) = false := by
    rcases hc with rfl | rfl <;> rfl
  have hchk : b.checked = some (!kingcheckSafe b.grid ((c.backRank, 4) : Pos) c) := by
    rw [Board.checked, hcm, inCheckColor, hfind, Option.map_some']
  have hdS : (castleShortMove c).dst = ((c.backRank, 6) : Pos) := by
    show addPos (c.backRank, 4) (0, 2) = _
    norm_num [addPos, Prod.ext_iff]
  have hdL : (castleLongMove c).dst = ((c.backRank, 2) : Pos) := by
    show addPos (c.backRank, 4) (0, -2) = _
    norm_num [addPos, Prod.ext_iff]
  have hinS : inBounds ((c.backRank, 6) : Pos) = true := by
    rcases hbr with h | h <;> rw [h] <;> decide
  have hinL : inBounds ((c.backRank, 2) : Pos) = true := by
    rcases hbr with h | h <;> rw [h] <;> decide
  set condS : Bool := b.castlingPerm.get c .kingSide
      && !(!kingcheckSafe b.grid ((c.backRank, 4) : Pos) c)
      && kingcheckSafe b.grid ((c.backRank, 5) : Pos) b.colorMove
      && !((b.grid ((c.backRank, 5) : Pos)).isOccupied
           || (b.grid ((c.backRank, 6) : Pos)).isOccupied) with hcondS_def
  set condL : Bool := b.castlingPerm.get c .queenSide
      && !(!kingcheckSafe b.grid ((c.backRank, 4) : Pos) c)
      && kingcheckSafe b.grid ((c.backRank, 3) : Pos) b.colorMove
      && !((b.grid ((c.backRank, 1) : Pos)).isOccupied
           || (b.grid ((c.backRank, 2) : Pos)).isOccupied
           || (b.grid ((c.backRank, 3) : Pos)).isOccupied) with hcondL_def
  have hall : ∀ x ∈ ((if condS = true then [castleShortMove c] else [])
        ++ (if condL = true then [castleLongMove c] else []) ++ kingNormalCands c ((c.backRank, 4) : Pos)),
      (finalChecks b x).isSome = true := by
    intro x hx
    rcases List.mem_append.mp hx with hx' | hxN
    · rcases List.mem_append.mp hx' with hxS | hxL
      · by_cases hcS : condS = true
        · rw [if_pos hcS] at hxS
          rcases List.mem_singleton.mp hxS with rfl
          exact finalChecks_isSome_king_move hcm rfl rfl rfl
            (by rw [hdS]; exact hinS) (Or.inr (Or.inl ⟨rfl, hdS⟩))
        · rw [if_neg hcS] at hxS; cases hxS
      · by_cases hcL : condL = true
        · rw [if_pos hcL] at hxL
          rcases List.mem_singleton.mp hxL with rfl
          exact finalChecks_isSome_king_move hcm rfl rfl rfl
            (by rw [hdL]; exact hinL) (Or.inr (Or.inr ⟨rfl, hdL⟩))
        · rw [if_neg hcL] at hxL; cases hxL
    · rw [kingNormalCands] at hxN
      obtain ⟨dst, hdst, rfl⟩ := List.mem_map.mp hxN
      refine finalChecks_isSome_king_move hcm rfl rfl rfl ?_ (Or.inl rfl)
      rcases List.mem_append.mp hdst with h | h
      · exact rayMoves_inBounds h
      · exact rayMoves_inBounds h
  obtain ⟨ms, hms⟩ := optFilter_isSome hall
  have hkm : kingMoves b ((c.backRank, 4) : Pos) c = some ms := by
    rw [kingMoves, hchk]
    exact hms
  have hnotLS : castleShortMove c ∉ (if condL = true then [castleLongMove c] else []) := by
    intro h
    by_cases hcL : condL = true
    · rw [if_pos hcL] at h
      have := congrArg Move.castlingFlag (List.mem_singleton.mp h)
      simp [castleShortMove, castleLongMove] at this
    · rw [if_neg hcL] at h; cases h
  have hnotNS : castleShortMove c ∉ kingNormalCands c ((c.backRank, 4) : Pos) := by
    intro h
    rw [kingNormalCands] at h
    obtain ⟨dst, _, heq⟩ := List.mem_map.mp h
    have := congrArg Move.castlingFlag heq
    simp [castleShortMove] at this
  have hnotSL : castleLongMove c ∉ (if condS = true then [castleShortMove c] else []) := by
    intro h
    by_cases hcS : condS = true
    · rw [if_pos hcS] at h
      have := congrArg Move.castlingFlag (List.mem_singleton.mp h)
      simp [castleShortMove, castleLongMove] at this
    · rw [if_neg hcS] at h; cases h
  have hnotNL : castleLongMove c ∉ kingNormalCands c ((c.backRank, 4) : Pos) := by
    intro h
    rw [kingNormalCands] at h
    obtain ⟨dst, _, heq⟩ := List.mem_map.mp h
    have := congrArg Move.castlingFlag heq
    simp [castleLongMove] at this
  have hmemS : castleShortMove c
      ∈ ((if condS = true then [castleShortMove c] else [])
        ++ (if condL = true then [castleLongMove c] else []) ++ kingNormalCands c ((c.backRank, 4) : Pos))
      ↔ condS = true := by
    constructor
    · intro h
      rcases List.mem_append.mp h with h' | hN
      · rcases List.mem_append.mp h' with hS | hL
        · by_cases hcS : condS = true
          · exact hcS
          · rw [if_neg hcS] at hS; cases hS
        · exact absurd hL hnotLS
      · exact absurd hN hnotNS
    · intro hcS
      exact List.mem_append.mpr (Or.inl (List.mem_append.mpr (Or.inl
        (by rw [if_pos hcS]; exact List.mem_singleton.mpr rfl))))
  have hmemL : castleLongMove c
      ∈ ((if condS = true then [castleShortMove c] else [])
        ++ (if condL = true then [castleLongMove c] else []) ++ kingNormalCands c ((c.backRank, 4) : Pos))
      ↔ condL = true := by
    constructor
    · intro h
      rcases List.mem_append.mp h with h' | hN
      · rcases List.mem_append.mp h' with hS | hL
        · exact absurd hS hnotSL
        · by_cases hcL : condL = true
          · exact hcL
          · rw [if_neg hcL] at hL; cases hL
      · exact absurd hN hnotNL
    · intro hcL
      exact List.mem_append.mpr (Or.inl (List.mem_append.mpr (Or.inr
        (by rw [if_pos hcL]; exact List.mem_singleton.mpr rfl))))
  have hcondS : condS = true ↔
      (b.castlingPerm.get c .kingSide = true ∧
       kingcheckSafe b.grid ((c.backRank, 4) : Pos) c = true ∧
       kingcheckSafe b.grid ((c.backRank, 5) : Pos) c = true ∧
       (b.grid ((c.backRank, 5) : Pos)).isOccupied = false ∧
       (b.grid ((c.backRank, 6) : Pos)).isOccupied = false) := by
    rw [hcondS_def, hcm]
    simp only [Bool.and_eq_true, Bool.not_not, Bool.not_eq_true', Bool.or_eq_false_iff]
    constructor
    · rintro ⟨⟨⟨h1, h2⟩, h3⟩, h4, h5⟩
      exact ⟨h1, h2, h3, h4, h5⟩
    · rintro ⟨h1, h2, h3, h4, h5⟩
      exact ⟨⟨⟨h1, h2⟩, h3⟩, h4, h5⟩
  have hcondL : condL = true ↔
      (b.castlingPerm.get c .queenSide = true ∧
       kingcheckSafe b.grid ((c.backRank, 4) : Pos) c = true ∧
       kingcheckSafe b.grid ((c.backRank, 3) : Pos) c = true ∧
       (b.grid ((c.backRank, 1) : Pos)).isOccupied = false ∧
       (b.grid ((c.backRank, 2) : Pos)).isOccupied = false ∧
       (b.grid ((c.backRank, 3) : Pos)).isOccupied = false) := by
    rw [hcondL_def, hcm]
    simp only [Bool.and_eq_true, Bool.not_not, Bool.not_eq_true', Bool.or_eq_false_iff]
    constructor
    · rintro ⟨⟨⟨h1, h2⟩, h3⟩, ⟨h4, h5⟩, h6⟩
      exact ⟨h1, h2, h3, h4, h5, h6⟩
    · rintro ⟨h1, h2, h3, h4, h5, h6⟩
      exact ⟨⟨⟨h1, h2⟩, h3⟩, ⟨h4, h5⟩, h6⟩
  have hfcS : inCheckColor (applyUpdates b.grid (castleShortMove c).updates) c = some false →
      (b.grid ((c.backRank, 5) : Pos)).isOccupied = false →
      (b.grid ((c.backRank, 6) : Pos)).isOccupied = false →
      finalChecks b (castleShortMove c) = some true := by
    intro hsim ho5 ho6
    have hrejb : (!inBounds (castleShortMove c).dst
        || (b.grid (castleShortMove c).frm).color != b.colorMove
        || (b.grid (castleShortMove c).dst).color == b.colorMove
        || obstruction b.grid (castleShortMove c).frm (castleShortMove c).dst) = false := by
      have e1 : inBounds (castleShortMove c).dst = true := by rw [hdS]; exact hinS
      have e2 : (b.grid (castleShortMove c).frm).color = b.colorMove := by
        show (b.grid ((c.backRank, 4) : Pos)).color = b.colorMove
        rw [hk, hcm]
      have e3 : ((b.grid (castleShortMove c).dst).color == b.colorMove) = false := by
        rw [hdS, hwf _ (isOccupied_false_type ho6), hcm]
        exact hcnone
      have e4 : obstruction b.grid (castleShortMove c).frm (castleShortMove c).dst = false := by
        show obstruction b.grid ((c.backRank, 4) : Pos) (castleShortMove c).dst = false
        rw [hdS, show ((c.backRank, 6) : Pos)
            = ((((c.backRank, 4) : Pos).1,
                ((c.backRank, 4) : Pos).2 + 1 * ((2 : Nat) : Int)) : Pos) from by norm_num]
        refine (obstruction_ray_col b.grid ((c.backRank, 4) : Pos) 1 2 (Or.inl rfl)).mpr ?_
        intro j hj1 hj2
        have hj : j = 1 := by omega
        subst hj
        rw [show ((((c.backRank, 4) : Pos).1,
            ((c.backRank, 4) : Pos).2 + 1 * ((1 : Nat) : Int)) : Pos)
            = ((c.backRank, 5) : Pos) from by norm_num]
        exact ho5
      rw [e1, e2, e3, e4]
      simp
    rw [finalChecks, if_neg (by rw [hrejb]; exact Bool.false_ne_true),
      show (updateFromMove b (castleShortMove c)).checked
        = inCheckColor (applyUpdates b.grid (castleShortMove c).updates) b.colorMove from rfl,
      hcm, hsim]
    rfl
  have hfcL : inCheckColor (applyUpdates b.grid (castleLongMove c).updates) c = some false →
      (b.grid ((c.backRank, 2) : Pos)).isOccupied = false →
      (b.grid ((c.backRank, 3) : Pos)).isOccupied = false →
      finalChecks b (castleLongMove c) = some true := by
    intro hsim ho2 ho3
    have hrejb : (!inBounds (castleLongMove c).dst
        || (b.grid (castleLongMove c).frm).color != b.colorMove
        || (b.grid (castleLongMove c).dst).color == b.colorMove
        || obstruction b.grid (castleLongMove c).frm (castleLongMove c).dst) = false := by
      have e1 : inBounds (castleLongMove c).dst = true := by rw [hdL]; exact hinL
      have e2 : (b.grid (castleLongMove c).frm).color = b.colorMove := by
        show (b.grid ((c.backRank, 4) : Pos)).color = b.colorMove
        rw [hk, hcm]
      have e3 : ((b.grid (castleLongMove c).dst).color == b.colorMove) = false := by
        rw [hdL, hwf _ (isOccupied_false_type ho2), hcm]
        exact hcnone
      have e4 : obstruction b.grid (castleLongMove c).frm (castleLongMove c).dst = false := by
        show obstruction b.grid ((c.backRank, 4) : Pos) (castleLongMove c).dst = false
        rw [hdL, show ((c.backRank, 2) : Pos)
            = ((((c.backRank, 4) : Pos).1,
                ((c.backRank, 4) : Pos).2 + -1 * ((2 : Nat) : Int)) : Pos) from by norm_num]
        refine (obstruction_ray_col b.grid ((c.backRank, 4) : Pos) (-1) 2 (Or.inr rfl)).mpr ?_
        intro j hj1 hj2
        have hj : j = 1 := by omega
        subst hj
        rw [show ((((c.backRank, 4) : Pos).1,
            ((c.backRank, 4) : Pos).2 + -1 * ((1 : Nat) : Int)) : Pos)
            = ((c.backRank, 3) : Pos) from by norm_num]
        exact ho3
      rw [e1, e2, e3, e4]
      simp
    rw [finalChecks, if_neg (by rw [hrejb]; exact Bool.false_ne_true),
      show (updateFromMove b (castleLongMove c)).checked
        = inCheckColor (applyUpdates b.grid (castleLongMove c).updates) b.colorMove from rfl,
      hcm, hsim]
    rfl
  refine ⟨ms, hkm, ?_, ?_⟩
  · constructor
    · intro hmem
      obtain ⟨hcand, hfc⟩ := optFilter_mem_of hms hmem
      obtain ⟨hperm, hs4, hs5, ho5, ho6⟩ := hcondS.mp (hmemS.mp hcand)
      have hsim := finalChecks_true_king_safe hfc
      rw [hcm] at hsim
      exact ⟨hperm, ho5, ho6, hs4, hs5, hsim⟩
    · rintro ⟨hperm, ho5, ho6, hs4, hs5, hsim⟩
      exact optFilter_mem_of_mem hms
        (hmemS.mpr (hcondS.mpr ⟨hperm, hs4, hs5, ho5, ho6⟩))
        (hfcS hsim ho5 ho6)
  · constructor
    · intro hmem
      obtain ⟨hcand, hfc⟩ := optFilter_mem_of hms hmem
      obtain ⟨hperm, hs4, hs3, ho1, ho2, ho3⟩ := hcondL.mp (hmemL.mp hcand)
      have hsim := finalChecks_true_king_safe hfc
      rw [hcm] at hsim
      exact ⟨hperm, ho1, ho2, ho3, hs4, hs3, hsim⟩
    · rintro ⟨hperm, ho1, ho2, ho3, hs4, hs3, hsim⟩
      exact optFilter_mem_of_mem hms
        (hmemL.mpr (hcondL.mpr ⟨hperm, hs4, hs3, ho1, ho2, ho3⟩))
        (hfcL hsim ho2 ho3)

/-- A constructible board (white king e1, black king h1, white king-side
right set, f1/g1 empty) on which `King.moves` generates the king-side
castle although the landing square g1 is attacked by the black king in
the current position (the simulation overwrites h1 — deleting the
attacker — before testing king safety). -/
def boardCastleBug : Board :=
  { grid := gridOf [pc 7 4 whiteKing, pc 7 7 blackKing],
    colorMove := .white,
    castlingPerm := ⟨true, false, false, false⟩,
    enpassantTarget := Option.none,
    allMovesCache := [] }

/-- Counterexample to C3 as stated: on `boardCastleBug` the castle move
is generated, yet its landing square is attacked by the opponent in the
current position, falsifying the claimed equivalence. -/
theorem c3_counterexample :
    (kingMoves boardCastleBug (7, 4) .white).isSome = true ∧
    ((kingMoves boardCastleBug (7, 4) .white).getD []).contains (castleShortMove .white)
      = true ∧
    kingcheckSafe boardCastleBug.grid ((7 : Int), (6 : Int)) .white = false := by
  decide

/-- `gridOf` with only honest pieces satisfies the grid well-formedness
used by `c3_castle_move_generation`. -/
theorem gridOf_wf (l : List (Pos × Piece))
    (hl : ∀ e ∈ l, e.2.type = .empty → e.2.color = .none) :
    ∀ p : Pos, ((gridOf l) p).type = .empty → ((gridOf l) p).color = .none := by
  intro p
  rw [gridOf]
  cases hf : l.find? fun e => e.1 == p with
  | none => intro _; rfl
  | some e =>
    simp only [Option.map_some', Option.getD_some]
    exact hl e (List.mem_of_find?_eq_some hf)

/-- A castling position: white king e1, white rook h1, black king e8,
white king-side right set. -/
def boardCastleOK : Board :=
  { grid := gridOf [pc 7 4 whiteKing, pc 7 7 whiteRook, pc 0 4 blackKing],
    colorMove := .white,
    castlingPerm := ⟨true, false, false, false⟩,
    enpassantTarget := Option.none,
    allMovesCache := [] }

/-- Witness for C3 (amended): on `boardCastleOK` all conditions hold and
the king-side castle is generated. -/
theorem c3_witness :
    ∃ ms, kingMoves boardCastleOK ((Color.white.backRank, 4) : Pos) .white = some ms ∧
      castleShortMove .white ∈ ms := by
  obtain ⟨ms, hkm, hshort, _⟩ := c3_castle_move_generation boardCastleOK .white
    (Or.inl rfl) rfl (gridOf_wf _ (by decide)) (by decide) (by decide)
  refine ⟨ms, hkm, hshort.mpr ?_⟩
  refine ⟨?_, ?_, ?_, ?_, ?_, ?_⟩ <;> decide

/-! ## The attack detector: C2 -/

/-- The 8 fixed L-shaped knight offsets (spec §4.1). -/
def knightDeltas : List Pos :=
  [(1, 2), (2, 1), (1, -2), (2, -1), (-1, 2), (-2, 1), (-1, -2), (-2, -1)]

/-- The 8 king-step offsets (spec §4.1: `king_steps = diagonals(1) ∪
orthogonals(1)`). -/
def kingDeltas : List Pos :=
  [(0, 1), (1, 0), (0, -1), (-1, 0), (1, 1), (1, -1), (-1, 1), (-1, -1)]

/-- The claim's attack predicate, written from its words: a diagonal ray
from `s` reaches a `c`-colored Bishop or Queen before any other piece, or
an orthogonal ray reaches a `c`-colored Rook or Queen first, or a
knight-step square holds a `c`-colored Knight, or a king-step square
holds a `c`-colored King, or one of the two pawn-capture-direction
squares (one step against the attacking color's forward direction `c.dir`)
holds a `c`-colored Pawn. -/
def attackedSpec (g : Grid) (s : Pos) (c : Color) : Prop :=
  (∃ q ∈ diagQuadrants, ∃ k : Nat, 1 ≤ k ∧ inBounds (addPos s (scale q k)) = true ∧
    (g (addPos s (scale q k)) = (⟨c, .queen⟩ : Piece) ∨
     g (addPos s (scale q k)) = (⟨c, .bishop⟩ : Piece)) ∧
    ∀ j : Nat, 1 ≤ j → j < k → (g (addPos s (scale q j))).isOccupied = false) ∨
  (∃ q ∈ perpSides, ∃ k : Nat, 1 ≤ k ∧ inBounds (addPos s (scale q k)) = true ∧
    (g (addPos s (scale q k)) = (⟨c, .queen⟩ : Piece) ∨
     g (addPos s (scale q k)) = (⟨c, .rook⟩ : Piece)) ∧
    ∀ j : Nat, 1 ≤ j → j < k → (g (addPos s (scale q j))).isOccupied = false) ∨
  (∃ dd ∈ knightDeltas, inBounds (addPos s dd) = true ∧
    g (addPos s dd) = (⟨c, .knight⟩ : Piece)) ∨
  (∃ dd ∈ kingDeltas, inBounds (addPos s dd) = true ∧
    g (addPos s dd) = (⟨c, .king⟩ : Piece)) ∨
  (∃ side ∈ ([1, -1] : List Int), inBounds (addPos s (-c.dir, side)) = true ∧
    g (addPos s (-c.dir, side)) = (⟨c, .pawn⟩ : Piece))

/-- Membership in a generator ray. -/
theorem mem_rayMoves {dirs : List Pos} {pos : Pos} {dth : Nat} {m : Pos} :
    m ∈ rayMoves dirs pos dth ↔
      ∃ q ∈ dirs, ∃ i : Nat, i < dth ∧ m = addPos pos (scale q (i + 1))
        ∧ inBounds m = true := by
  simp only [rayMoves, List.mem_flatMap, List.mem_filter, List.mem_map, List.mem_range]
  constructor
  · rintro ⟨q, hq, ⟨i, hi, rfl⟩, hin⟩
    exact ⟨q, hq, i, hi, rfl, hin⟩
  · rintro ⟨q, hq, i, hi, rfl, hin⟩
    exact ⟨q, hq, ⟨i, hi, rfl⟩, hin⟩

/-- Membership in the knight-step generator is exactly a knight offset. -/
theorem mem_lShapedMoves {s m : Pos} :
    m ∈ lShapedMoves s ↔ ∃ dd ∈ knightDeltas, m = addPos s dd ∧ inBounds m = true := by
  simp only [lShapedMoves, List.mem_flatMap, List.mem_filter, List.mem_map]
  constructor
  · rintro ⟨q, hq, ⟨mg, hmg, rfl⟩, hin⟩
    simp only [diagQuadrants, List.mem_cons, List.not_mem_nil, or_false] at hq
    simp only [List.mem_cons, List.not_mem_nil, or_false] at hmg
    rcases hq with rfl | rfl | rfl | rfl
    · rcases hmg with rfl | rfl
      · exact ⟨(1, 2), by norm_num [knightDeltas], by norm_num, hin⟩
      · exact ⟨(2, 1), by norm_num [knightDeltas], by norm_num, hin⟩
    · rcases hmg with rfl | rfl
      · exact ⟨(1, -2), by norm_num [knightDeltas], by norm_num, hin⟩
      · exact ⟨(2, -1), by norm_num [knightDeltas], by norm_num, hin⟩
    · rcases hmg with rfl | rfl
      · exact ⟨(-1, 2), by norm_num [knightDeltas], by norm_num, hin⟩
      · exact ⟨(-2, 1), by norm_num [knightDeltas], by norm_num, hin⟩
    · rcases hmg with rfl | rfl
      · exact ⟨(-1, -2), by norm_num [knightDeltas], by norm_num, hin⟩
      · exact ⟨(-2, -1), by norm_num [knightDeltas], by norm_num, hin⟩
  · rintro ⟨dd, hdd, rfl, hin⟩
    simp only [knightDeltas, List.mem_cons, List.not_mem_nil, or_false] at hdd
    rcases hdd with rfl | rfl | rfl | rfl | rfl | rfl | rfl | rfl
    · exact ⟨(1, 1), by norm_num [diagQuadrants], ⟨(1, 2), by norm_num, by norm_num⟩, hin⟩
    · exact ⟨(1, 1), by norm_num [diagQuadrants], ⟨(2, 1), by norm_num, by norm_num⟩, hin⟩
    · exact ⟨(1, -1), by norm_num [diagQuadrants], ⟨(1, 2), by norm_num, by norm_num⟩, hin⟩
    · exact ⟨(1, -1), by norm_num [diagQuadrants], ⟨(2, 1), by norm_num, by norm_num⟩, hin⟩
    · exact ⟨(-1, 1), by norm_num [diagQuadrants], ⟨(1, 2), by norm_num, by norm_num⟩, hin⟩
    · exact ⟨(-1, 1), by norm_num [diagQuadrants], ⟨(2, 1), by norm_num, by norm_num⟩, hin⟩
    · exact ⟨(-1, -1), by norm_num [diagQuadrants], ⟨(1, 2), by norm_num, by norm_num⟩, hin⟩
    · exact ⟨(-1, -1), by norm_num [diagQuadrants], ⟨(2, 1), by norm_num, by norm_num⟩, hin⟩

/-- Membership in the king-step squares (`perpendicular_moves(pos, 1)`
followed by `diagonal_moves(pos, 1)`) is exactly a king offset. -/
theorem mem_kingSteps {s m : Pos} :
    m ∈ perpendicularMoves s 1 ++ diagonalMoves s 1 ↔
      ∃ dd ∈ kingDeltas, m = addPos s dd ∧ inBounds m = true := by
  rw [List.mem_append, perpendicularMoves, diagonalMoves, mem_rayMoves, mem_rayMoves]
  constructor
  · rintro (⟨q, hq, i, hi, rfl, hin⟩ | ⟨q, hq, i, hi, rfl, hin⟩)
    · have hi0 : i = 0 := by omega
      subst hi0
      simp only [perpSides, List.mem_cons, List.not_mem_nil, or_false] at hq
      rcases hq with rfl | rfl | rfl | rfl
      · exact ⟨(0, 1), by norm_num [kingDeltas], by norm_num [scale], hin⟩
      · exact ⟨(1, 0), by norm_num [kingDeltas], by norm_num [scale], hin⟩
      · exact ⟨(0, -1), by norm_num [kingDeltas], by norm_num [scale], hin⟩
      · exact ⟨(-1, 0), by norm_num [kingDeltas], by norm_num [scale], hin⟩
    · have hi0 : i = 0 := by omega
      subst hi0
      simp only [diagQuadrants, List.mem_cons, List.not_mem_nil, or_false] at hq
      rcases hq with rfl | rfl | rfl | rfl
      · exact ⟨(1, 1), by norm_num [kingDeltas], by norm_num [scale], hin⟩
      · exact ⟨(1, -1), by norm_num [kingDeltas], by norm_num [scale], hin⟩
      · exact ⟨(-1, 1), by norm_num [kingDeltas], by norm_num [scale], hin⟩
      · exact ⟨(-1, -1), by norm_num [kingDeltas], by norm_num [scale], hin⟩
  · rintro ⟨dd, hdd, rfl, hin⟩
    simp only [kingDeltas, List.mem_cons, List.not_mem_nil, or_false] at hdd
    rcases hdd with rfl | rfl | rfl | rfl | rfl | rfl | rfl | rfl
    · exact Or.inl ⟨(0, 1), by norm_num [perpSides], 0, by omega, by norm_num [scale], hin⟩
    · exact Or.inl ⟨(1, 0), by norm_num [perpSides], 0, by omega, by norm_num [scale], hin⟩
    · exact Or.inl ⟨(0, -1), by norm_num [perpSides], 0, by omega, by norm_num [scale], hin⟩
    · exact Or.inl ⟨(-1, 0), by norm_num [perpSides], 0, by omega, by norm_num [scale], hin⟩
    · exact Or.inr ⟨(1, 1), by norm_num [diagQuadrants], 0, by omega, by norm_num [scale], hin⟩
    · exact Or.inr ⟨(1, -1), by norm_num [diagQuadrants], 0, by omega, by norm_num [scale], hin⟩
    · exact Or.inr ⟨(-1, 1), by norm_num [diagQuadrants], 0, by omega, by norm_num [scale], hin⟩
    · exact Or.inr ⟨(-1, -1), by norm_num [diagQuadrants], 0, by omega, by norm_num [scale], hin⟩

/-- On an in-grid origin, an in-grid ray point is at distance at most 7. -/
theorem ray_dist_le7 {s q : Pos} {k : Nat}
    (hq : q ∈ diagQuadrants ∨ q ∈ perpSides) (hs : inBounds s = true)
    (hin : inBounds (addPos s (scale q k)) = true) : k ≤ 7 := by
  rcases hq with h | h <;>
      simp only [diagQuadrants, perpSides, List.mem_cons, List.not_mem_nil, or_false] at h <;>
      rcases h with rfl | rfl | rfl | rfl <;>
      · rw [inBounds] at hs hin
        simp only [addPos, scale, Bool.and_eq_true, decide_eq_true_eq, max_le_iff,
          ge_iff_le, le_min_iff] at hs hin
        omega

/-- The slider scan of `kingcheck_safe` along one family of rays is the
claim's "reaches one of the two target pieces before any other piece". -/
theorem ray_clause_equiv (g : Grid) (s : Pos) (dirs : List Pos) (t1 t2 : Piece)
    (hdirs : dirs = diagQuadrants ∨ dirs = perpSides) (hs : inBounds s = true) :
    (((rayMoves dirs s 7).any fun m =>
        (g m == t1 || g m == t2) && !obstruction g s m) = true ↔
      ∃ q ∈ dirs, ∃ k : Nat, 1 ≤ k ∧ inBounds (addPos s (scale q k)) = true ∧
        (g (addPos s (scale q k)) = t1 ∨ g (addPos s (scale q k)) = t2) ∧
        ∀ j : Nat, 1 ≤ j → j < k → (g (addPos s (scale q j))).isOccupied = false) := by
  rw [List.any_eq_true]
  constructor
  · rintro ⟨m, hmem, hp⟩
    obtain ⟨q, hq, i, hi, rfl, hin⟩ := mem_rayMoves.mp hmem
    simp only [Bool.and_eq_true, Bool.or_eq_true, beq_iff_eq, Bool.not_eq_true'] at hp
    obtain ⟨hpiece, hobs⟩ := hp
    have hqd : q ∈ diagQuadrants ∨ q ∈ perpSides := by
      rcases hdirs with rfl | rfl
      · exact Or.inl hq
      · exact Or.inr hq
    exact ⟨q, hq, i + 1, by omega, hin, hpiece,
      (obstruction_scale g s q (i + 1) hqd).mp hobs⟩
  · rintro ⟨q, hq, k, hk1, hin, hpiece, hbetween⟩
    have hqd : q ∈ diagQuadrants ∨ q ∈ perpSides := by
      rcases hdirs with rfl | rfl
      · exact Or.inl hq
      · exact Or.inr hq
    have hk7 : k ≤ 7 := ray_dist_le7 hqd hs hin
    refine ⟨addPos s (scale q k), mem_rayMoves.mpr ⟨q, hq, k - 1, by omega, ?_, hin⟩, ?_⟩
    · rw [Nat.sub_add_cancel hk1]
    · simp only [Bool.and_eq_true, Bool.or_eq_true, beq_iff_eq, Bool.not_eq_true']
      exact ⟨hpiece, (obstruction_scale g s q k hqd).mpr hbetween⟩

/-- The early-return chain of `kingcheck_safe`: unsafe exactly when one of
its five scans fires. -/
theorem kingcheckSafe_false_iff (g : Grid) (s : Pos) (d : Color) :
    kingcheckSafe g s d = false ↔
      ((lShapedMoves s).any (fun m => g m == (⟨d.other, .knight⟩ : Piece)) = true ∨
       ((perpendicularMoves s).any fun m =>
         (g m == (⟨d.other, .queen⟩ : Piece) || g m == (⟨d.other, .rook⟩ : Piece)) &&
         !obstruction g s m) = true ∨
       ((diagonalMoves s).any fun m =>
         (g m == (⟨d.other, .queen⟩ : Piece) || g m == (⟨d.other, .bishop⟩ : Piece)) &&
         !obstruction g s m) = true ∨
       ((perpendicularMoves s 1 ++ diagonalMoves s 1).any
         (fun m => g m == (⟨d.other, .king⟩ : Piece))) = true ∨
       (([1, -1] : List Int).any fun side =>
         let m := addPos s (d.dir, side)
         inBounds m && (g m == (⟨d.other, .pawn⟩ : Piece))) = true) := by
  simp only [kingcheckSafe]
  by_cases h1 : (lShapedMoves s).any (fun m => g m == (⟨d.other, .knight⟩ : Piece)) = true
  · simp [h1]
  · rw [if_neg h1]
    by_cases h2 : ((perpendicularMoves s).any fun m =>
        (g m == (⟨d.other, .queen⟩ : Piece) || g m == (⟨d.other, .rook⟩ : Piece)) &&
        !obstruction g s m) = true
    · simp [h1, h2]
    · rw [if_neg h2]
      by_cases h3 : ((diagonalMoves s).any fun m =>
          (g m == (⟨d.other, .queen⟩ : Piece) || g m == (⟨d.other, .bishop⟩ : Piece)) &&
          !obstruction g s m) = true
      · simp [h1, h2, h3]
      · rw [if_neg h3]
        by_cases h4 : ((perpendicularMoves s 1 ++ diagonalMoves s 1).any
            (fun m => g m == (⟨d.other, .king⟩ : Piece))) = true
        · simp [h1, h2, h3, h4]
        · rw [if_neg h4]
          simp only [h1, h2, h3, h4, Bool.not_eq_false', false_or,
            List.any_cons, List.any_nil, Bool.or_false, Bool.or_eq_true,
            Bool.and_eq_true, beq_iff_eq]
          tauto

/-- C2: the attack detector `kingcheck_safe` reports its square attacked
(returns `false` for the defending color `d`) exactly under the claim's
five geometric conditions for the attacking color `d.other`. -/
theorem c2_attack_detector_matches_spec (g : Grid) (s : Pos) (d : Color)
    (hd : d = .white ∨ d = .black) (hs : inBounds s = true) :
    (kingcheckSafe g s d = false ↔ attackedSpec g s d.other) := by
  have eKnight : (lShapedMoves s).any (fun m => g m == (⟨d.other, .knight⟩ : Piece)) = true ↔
      ∃ dd ∈ knightDeltas, inBounds (addPos s dd) = true ∧
        g (addPos s dd) = (⟨d.other, .knight⟩ : Piece) := by
    rw [List.any_eq_true]
    constructor
    · rintro ⟨m, hmem, hp⟩
      obtain ⟨dd, hdd, rfl, hin⟩ := mem_lShapedMoves.mp hmem
      exact ⟨dd, hdd, hin, by simpa using hp⟩
    · rintro ⟨dd, hdd, hin, hp⟩
      exact ⟨addPos s dd, mem_lShapedMoves.mpr ⟨dd, hdd, rfl, hin⟩, by simp [hp]⟩
  have eKing : ((perpendicularMoves s 1 ++ diagonalMoves s 1).any
      (fun m => g m == (⟨d.other, .king⟩ : Piece))) = true ↔
      ∃ dd ∈ kingDeltas, inBounds (addPos s dd) = true ∧
        g (addPos s dd) = (⟨d.other, .king⟩ : Piece) := by
    rw [List.any_eq_true]
    constructor
    · rintro ⟨m, hmem, hp⟩
      obtain ⟨dd, hdd, rfl, hin⟩ := mem_kingSteps.mp hmem
      exact ⟨dd, hdd, hin, by simpa using hp⟩
    · rintro ⟨dd, hdd, hin, hp⟩
      exact ⟨addPos s dd, mem_kingSteps.mpr ⟨dd, hdd, rfl, hin⟩, by simp [hp]⟩
  have hdirba : -(d.other).dir = d.dir := by
    rcases hd with rfl | rfl <;> rfl
  have ePawn : (([1, -1] : List Int).any fun side =>
      let m := addPos s (d.dir, side)
      inBounds m && (g m == (⟨d.other, .pawn⟩ : Piece))) = true ↔
      ∃ side ∈ ([1, -1] : List Int), inBounds (addPos s (-(d.other).dir, side)) = true ∧
        g (addPos s (-(d.other).dir, side)) = (⟨d.other, .pawn⟩ : Piece) := by
    rw [hdirba, List.any_eq_true]
    constructor
    · rintro ⟨side, hside, hp⟩
      simp only [Bool.and_eq_true, beq_iff_eq] at hp
      exact ⟨side, hside, hp.1, hp.2⟩
    · rintro ⟨side, hside, hin, hp⟩
      refine ⟨side, hside, ?_⟩
      simp only [Bool.and_eq_true, beq_iff_eq]
      exact ⟨hin, hp⟩
  have ePerp := ray_clause_equiv g s perpSides (⟨d.other, .queen⟩ : Piece)
    (⟨d.other, .rook⟩ : Piece) (Or.inr rfl) hs
  have eDiag := ray_clause_equiv g s diagQuadrants (⟨d.other, .queen⟩ : Piece)
    (⟨d.other, .bishop⟩ : Piece) (Or.inl rfl) hs
  rw [kingcheckSafe_false_iff, attackedSpec, eKnight, eKing, ePawn]
  rw [show ((perpendicularMoves s).any fun m =>
      (g m == (⟨d.other, .queen⟩ : Piece) || g m == (⟨d.other, .rook⟩ : Piece)) &&
      !obstruction g s m) = ((rayMoves perpSides s 7).any fun m =>
      (g m == (⟨d.other, .queen⟩ : Piece) || g m == (⟨d.other, .rook⟩ : Piece)) &&
      !obstruction g s m) from rfl, ePerp]
  rw [show ((diagonalMoves s).any fun m =>
      (g m == (⟨d.other, .queen⟩ : Piece) || g m == (⟨d.other, .bishop⟩ : Piece)) &&
      !obstruction g s m) = ((rayMoves diagQuadrants s 7).any fun m =>
      (g m == (⟨d.other, .queen⟩ : Piece) || g m == (⟨d.other, .bishop⟩ : Piece)) &&
      !obstruction g s m) from rfl, eDiag]
  constructor
  · rintro (h | h | h | h | h)
    · exact Or.inr (Or.inr (Or.inl h))
    · exact Or.inr (Or.inl h)
    · exact Or.inl h
    · exact Or.inr (Or.inr (Or.inr (Or.inl h)))
    · exact Or.inr (Or.inr (Or.inr (Or.inr h)))
  · rintro (h | h | h | h | h)
    · exact Or.inr (Or.inr (Or.inl h))
    · exact Or.inr (Or.inl h)
    · exact Or.inl h
    · exact Or.inr (Or.inr (Or.inr (Or.inl h)))
    · exact Or.inr (Or.inr (Or.inr (Or.inr h)))

/-- Witness for C2 at a concrete input: on `boardPK`, for the defender
Black and the square d3 (which the white pawn on e2 attacks), the
detector verdict coincides with the spec predicate. -/
theorem c2_witness :
    kingcheckSafe boardPK.grid ((5 : Int), (3 : Int)) Color.black = false ↔
      attackedSpec boardPK.grid ((5 : Int), (3 : Int)) Color.black.other :=
  c2_attack_detector_matches_spec boardPK.grid (5, 3) Color.black (Or.inr rfl) (by decide)

end Chess
